import Mathlib

/-!
Shallow embedding of the `GameRoom` Durable Object from `src/src/game-room.js`
(moneyman multiplayer room), together with theorems checking the
natural-language specification against it.

Modelling conventions:
* JS numbers are modelled as `ℚ` (all arithmetic in the room logic is exact on
  the inputs we consider); wall-clock timestamps (`Date.now()`, milliseconds)
  are `ℕ`.  A source division `a / b` by a constant is written `a * mkRat 1 b`
  (definitionally the same rational) because the field division on `ℚ` does
  not reduce inside the kernel, which concrete witnesses rely on.
* `Math.sin` is an oracle parameter `sin : ℚ → ℚ`; `Math.random` draws are an
  oracle `rands : ℕ → SpawnRand` indexed by the coin id being spawned (the
  source calls `Math.random` exactly when a coin is actually spawned, and
  `nextCoinId` increments exactly then).  The two draws that the source scales
  by `2π` (initial `rotation` and `wobbleOffset`) are modelled as direct draws
  of the resulting phase, since `π` is irrational.
* JS `Map`s (insertion ordered, unique keys) are modelled as lists in
  insertion order; handlers that look a key up operate on the first matching
  entry, as a `Map` does.
* Storage persistence, alarm scheduling, socket attachment serialization and
  the hibernation-restore path (`_ensureInitialized`) are I/O bookkeeping with
  no effect on the in-memory transition logic modelled here; broadcasts are
  modelled as a list of emitted messages per handler invocation.
-/

namespace MoneyMan

attribute [local semireducible] Rat.add Rat.mul Rat.sub Rat.inv Rat.ofScientific

/-- Game constants from the top of `game-room.js`. -/
def CANVAS_WIDTH : ℚ := 960

def CANVAS_HEIGHT : ℚ := 540

def GROUND_Y : ℚ := CANVAS_HEIGHT - 40

def PLAYER_WIDTH : ℚ := 60

def PLAYER_HEIGHT : ℚ := 70

def COIN_RADIUS : ℚ := 16

def BROADCAST_THROTTLE_MS : ℤ := 50

def MAX_PHYSICS_DT : ℚ := mkRat 1 5

def GAME_DURATION : ℚ := 60

def COUNTDOWN_SECONDS : ℤ := 5

def LOBBY_IDLE_TIMEOUT : ℕ := 20

def MAX_PLAYERS : ℕ := 5

def COIN_BASE_SPEED : ℚ := 89

def COIN_SPEED_VARIATION : ℚ := 71

def COIN_SPAWN_INTERVAL : ℚ := mkRat 1 2

def COLLISION_FORGIVENESS : ℚ := 8

def PLAYER_COLORS : List String :=
  ["#e74c3c", "#3498db", "#2ecc71", "#f39c12", "#9b59b6"]

/-- Profanity blocklist (`BLOCKED_WORDS` in the source). -/
def BLOCKED_WORDS : List String :=
  ["fuck", "shit", "ass", "dick", "cock", "cunt", "bitch", "damn",
   "piss", "slut", "whore", "fag", "nig", "rape", "porn", "sex",
   "tit", "boob", "penis", "vagin", "anus", "jizz", "cum", "wank",
   "twat", "prick", "homo", "retard"]

/-- Hat ids of `HAT_CATALOG` (from `hat-catalog.js`); the join handler only
checks membership of the supplied hat id. -/
def HAT_IDS : List String :=
  ["cap", "beanie", "headband", "baseball", "party", "beret", "cowboy",
   "tophat", "chef", "wizard", "pirate", "viking", "crown", "astronaut", "halo"]

/-- Decides whether `needle` occurs as a contiguous substring of `haystack`
(JS `String.prototype.includes`). -/
def hasInfix (needle : List Char) : List Char → Bool
  | [] => needle.isEmpty
  | c :: t => needle.isPrefixOf (c :: t) || hasInfix needle t

/-- Character class `[a-zA-Z0-9 _-]` used by `sanitizeName`'s regex. -/
def allowedChar (c : Char) : Bool :=
  c.isAlpha || c.isDigit || c = ' ' || c = '_' || c = '-'

/-- `sanitizeName` from the source: strip disallowed characters, trim
whitespace, keep the first 8 characters. -/
def sanitizeName (name : String) : String :=
  String.mk ((((name.toList.filter allowedChar).dropWhile
      Char.isWhitespace).reverse.dropWhile Char.isWhitespace).reverse.take 8)

/-- `isNameClean` from the source: lowercase, strip `[_\-\s]`, and require
that no blocked word occurs as a substring. -/
def isNameClean (name : String) : Bool :=
  let lower := (name.toList.map Char.toLower).filter
      (fun c => !(c = '_' || c = '-' || c.isWhitespace))
  !(BLOCKED_WORDS.any fun w => hasInfix w.toList lower)

/-- Hex digit test used by the UUID regex `[0-9a-f]` with the `i` flag. -/
def isHexChar (c : Char) : Bool :=
  c.isDigit || ('a' ≤ c && c ≤ 'f') || ('A' ≤ c && c ≤ 'F')

/-- `isValidUUID` from `db.js`: the UUID shape `8-4-4-4-12` of hex digits with
dashes at positions 8, 13, 18, 23 (case-insensitive). -/
def isValidUUID (id : String) : Bool :=
  let cs := id.toList
  cs.length = 36 &&
    (List.range 36).all fun i =>
      if i = 8 || i = 13 || i = 18 || i = 23 then cs.getD i ' ' = '-'
      else isHexChar (cs.getD i ' ')

/-- One active-roster entry (value of the `players` Map). -/
structure Player where
  pid : String
  x : ℚ
  score : ℕ
  color : String
  name : String
  hat : String
  userId : Option String
  deriving Repr, DecidableEq

/-- One waiting-room entry (value of the `waitingRoom` Map). -/
structure WaitingEntry where
  pid : String
  color : String
  name : String
  hat : String
  userId : Option String
  deriving Repr, DecidableEq

/-- A falling coin (element of `this.coins`). -/
structure Coin where
  id : ℕ
  x : ℚ
  y : ℚ
  speed : ℚ
  radius : ℚ
  rotation : ℚ
  rotationSpeed : ℚ
  wobbleOffset : ℚ
  wobbleAmount : ℚ
  deriving Repr, DecidableEq

/-- A `CollectedEvent` (`{playerId, x, y}` pushed into `collected`). -/
structure CEvent where
  playerId : String
  x : ℚ
  y : ℚ
  deriving Repr, DecidableEq

/-- The lifecycle states of the room. -/
inductive RState where
  | LOBBY
  | COUNTDOWN
  | PLAYING
  | GAME_OVER
  deriving Repr, DecidableEq

/-- In-memory state of the `GameRoom` (the fields set in the constructor). -/
structure Room where
  state : RState
  players : List Player
  waitingRoom : List WaitingEntry
  coins : List Coin
  nextCoinId : ℕ
  timeLeft : ℚ
  countdownSeconds : ℤ
  coinSpawnAccumulator : ℚ
  nextPlayerId : ℕ
  lastPhysicsTime : ℕ
  lastBroadcastTime : ℕ
  pendingCollected : List CEvent
  deriving Repr, DecidableEq

/-- The constructor's initial room. -/
def initialRoom : Room where
  state := .LOBBY
  players := []
  waitingRoom := []
  coins := []
  nextCoinId := 1
  timeLeft := GAME_DURATION
  countdownSeconds := COUNTDOWN_SECONDS
  coinSpawnAccumulator := 0
  nextPlayerId := 1
  lastPhysicsTime := 0
  lastBroadcastTime := 0
  pendingCollected := []

/-- The raw `Math.random()` draws consumed by one `_spawnCoin` call.  `rrot`
and `rwobOff` stand for the already-scaled phases `Math.random()*Math.PI*2`. -/
structure SpawnRand where
  rx : ℚ
  rspeed : ℚ
  rrot : ℚ
  rrotSpeed : ℚ
  rwobOff : ℚ
  rwobAmt : ℚ
  deriving Repr, DecidableEq

/-- The coin built by `_spawnCoin` from one batch of random draws. -/
def mkCoin (sr : SpawnRand) (id : ℕ) : Coin where
  id := id
  x := COIN_RADIUS + sr.rx * (CANVAS_WIDTH - COIN_RADIUS * 2)
  y := -COIN_RADIUS
  speed := COIN_BASE_SPEED + sr.rspeed * COIN_SPEED_VARIATION
  radius := COIN_RADIUS
  rotation := sr.rrot
  rotationSpeed := 3 + sr.rrotSpeed * 4
  wobbleOffset := sr.rwobOff
  wobbleAmount := mkRat 3 10 + sr.rwobAmt * mkRat 1 2

/-- `_spawnCoin`: pushes a new coin unless the 50-coin hard cap is reached. -/
def trySpawn (rands : ℕ → SpawnRand) (coins : List Coin) (nextId : ℕ) :
    List Coin × ℕ :=
  if 50 ≤ coins.length then (coins, nextId)
  else (coins ++ [mkCoin (rands nextId) nextId], nextId + 1)

/-- One pass of the spawn loop of `_advancePhysics`, with an explicit upper
bound on the number of iterations (each iteration subtracts one spawn
interval, so the loop guard stops within `⌈acc / interval⌉` passes; the fuel
only makes the `while` structurally recursive and never cuts it short). -/
def spawnLoopAux (rands : ℕ → SpawnRand) :
    ℕ → List Coin → ℕ → ℚ → List Coin × ℕ × ℚ
  | 0, coins, nextId, acc => (coins, nextId, acc)
  | fuel + 1, coins, nextId, acc =>
    if COIN_SPAWN_INTERVAL ≤ acc then
      let s := trySpawn rands coins nextId
      spawnLoopAux rands fuel s.1 s.2 (acc - COIN_SPAWN_INTERVAL)
    else
      (coins, nextId, acc)

/-- The spawn loop of `_advancePhysics`: while the accumulator holds at least
one spawn interval, subtract it and spawn one coin. -/
def spawnLoop (rands : ℕ → SpawnRand) (coins : List Coin) (nextId : ℕ)
    (acc : ℚ) : List Coin × ℕ × ℚ :=
  spawnLoopAux rands (⌈2 * acc⌉).toNat coins nextId acc

/-- The fuel bound never cuts the spawn loop short: when the fuel runs out
the loop guard is already false. -/
lemma spawnLoopAux_fuel_enough (rands : ℕ → SpawnRand) :
    ∀ (fuel : ℕ) (coins : List Coin) (nextId : ℕ) (acc : ℚ),
      (⌈2 * acc⌉).toNat ≤ fuel →
      ¬ COIN_SPAWN_INTERVAL ≤ (spawnLoopAux rands fuel coins nextId acc).2.2 := by
  intro fuel
  induction fuel with
  | zero =>
    intro coins nextId acc hle hcontra
    unfold spawnLoopAux at hcontra
    unfold COIN_SPAWN_INTERVAL at hcontra
    rw [Rat.mkRat_eq_div] at hcontra
    dsimp only at hcontra
    have : (1 : ℤ) ≤ ⌈2 * acc⌉ := by
      have h1 : ((1 : ℤ) : ℚ) ≤ (⌈2 * acc⌉ : ℚ) := by
        calc ((1 : ℤ) : ℚ) ≤ 2 * acc := by push_cast; linarith
          _ ≤ (⌈2 * acc⌉ : ℚ) := Int.le_ceil (2 * acc)
      exact_mod_cast h1
    omega
  | succ fuel ih =>
    intro coins nextId acc hle
    unfold spawnLoopAux
    split
    case isTrue hc =>
      apply ih
      have hceil : ⌈2 * (acc - COIN_SPAWN_INTERVAL)⌉ = ⌈2 * acc⌉ - 1 := by
        have h2 : 2 * (acc - COIN_SPAWN_INTERVAL) = 2 * acc - 1 := by
          unfold COIN_SPAWN_INTERVAL
          rw [Rat.mkRat_eq_div]
          push_cast
          ring
        rw [h2]
        exact_mod_cast Int.ceil_sub_int (2 * acc) 1
      omega
    case isFalse hc =>
      exact hc

/-- Motion of one coin during a step: `y += speed*dt`, then the sinusoidal
x-wobble computed from the updated `y`, then `rotation += rotationSpeed*dt`. -/
def moveCoin (sin : ℚ → ℚ) (dt : ℚ) (c : Coin) : Coin :=
  let y := c.y + c.speed * dt
  { c with
    y := y
    x := c.x + sin (y * mkRat 1 50 + c.wobbleOffset) * c.wobbleAmount
    rotation := c.rotation + c.rotationSpeed * dt }

/-- The circle-vs-box proximity test of `_advancePhysics` (only the player's
`x` matters; the box's y-extent is fixed). -/
def hits (c : Coin) (p : Player) : Bool :=
  let playerY := GROUND_Y - PLAYER_HEIGHT
  let closestX := max p.x (min c.x (p.x + PLAYER_WIDTH))
  let closestY := max playerY (min c.y (playerY + PLAYER_HEIGHT))
  let distX := c.x - closestX
  let distY := c.y - closestY
  let hitRadius := COIN_RADIUS + COLLISION_FORGIVENESS
  decide (distX * distX + distY * distY < hitRadius * hitRadius)

/-- Ground-miss test: `coin.y - COIN_RADIUS > GROUND_Y`. -/
def fellOff (c : Coin) : Bool :=
  decide (GROUND_Y < c.y - COIN_RADIUS)

/-- Award a catch to the (unique) roster entry with the given id:
`player.score += 10`. -/
def credit (pid : String) : List Player → List Player
  | [] => []
  | p :: ps =>
    if p.pid = pid then { p with score := p.score + 10 } :: ps
    else p :: credit pid ps

/-- The coin loop of `_advancePhysics` on the reversed coin list (the source
iterates `i` from `coins.length-1` down to `0`, splicing out removed coins):
each coin is moved, then dropped if it crossed the ground, else awarded to the
first colliding player in roster order, else kept.  Returns the surviving
coins in original order, the updated roster, and the collected events in
processing order. -/
def processRev (sin : ℚ → ℚ) (dt : ℚ) :
    List Player → List Coin → List Coin × List Player × List CEvent
  | ps, [] => ([], ps, [])
  | ps, c :: rest =>
    let c' := moveCoin sin dt c
    if fellOff c' then
      processRev sin dt ps rest
    else
      match ps.find? (fun p => hits c' p) with
      | some p =>
        let out := processRev sin dt (credit p.pid ps) rest
        (out.1, out.2.1, ⟨p.pid, c'.x, c'.y⟩ :: out.2.2)
      | none =>
        let out := processRev sin dt ps rest
        (out.1 ++ [c'], out.2.1, out.2.2)

/-- Coin motion, removal and collision for one physics step (the second half
of `_advancePhysics`). -/
def processCoins (sin : ℚ → ℚ) (dt : ℚ) (ps : List Player)
    (coins : List Coin) : List Coin × List Player × List CEvent :=
  processRev sin dt ps coins.reverse

/-- `_advancePhysics(dt)`: decrement `timeLeft`, run the spawn loop, then
move/remove/collide every coin.  Returns the updated room and the
`CollectedEvent` list. -/
def advancePhysics (sin : ℚ → ℚ) (rands : ℕ → SpawnRand) (dt : ℚ)
    (r : Room) : Room × List CEvent :=
  let s := spawnLoop rands r.coins r.nextCoinId (r.coinSpawnAccumulator + dt)
  let out := processCoins sin dt r.players s.1
  ({ r with
      timeLeft := r.timeLeft - dt
      coins := out.1
      players := out.2.1
      nextCoinId := s.2.1
      coinSpawnAccumulator := s.2.2 }, out.2.2)

/-- Player snapshot inside a `gameState` payload (`x` is `Math.round`ed). -/
structure GSPlayer where
  playerId : String
  x : ℤ
  score : ℕ
  color : String
  name : String
  hat : String
  deriving Repr, DecidableEq

/-- Coin snapshot inside a `gameState` payload (coordinates rounded to one
decimal, rotation to two). -/
structure GSCoin where
  id : ℕ
  x : ℚ
  y : ℚ
  rotation : ℚ
  deriving Repr, DecidableEq

/-- Entry of a `lobby` payload: `(playerId, name, color, hat)`. -/
structure LobbyEntry where
  playerId : String
  name : String
  color : String
  hat : String
  deriving Repr, DecidableEq

/-- Ranked entry of the `gameOver` payload, after `_endGame` adds
`coinsEarned` and `isWinner`. -/
structure RankedPlayer where
  playerId : String
  name : String
  score : ℕ
  color : String
  hat : String
  userId : Option String
  coinsEarned : ℕ
  isWinner : Bool
  deriving Repr, DecidableEq

/-- Outbound messages of the room (payload text such as the `waiting` and
`nameRejected` human-readable strings is omitted). -/
inductive Msg where
  | welcome (playerId : String)
  | lobby (players : List LobbyEntry) (idleTimer : ℕ)
  | countdown (seconds : ℤ)
  | gameState (players : List GSPlayer) (coins : List GSCoin) (timeLeft : ℚ)
      (collected : List CEvent)
  | gameOver (players : List RankedPlayer)
  | waiting
  | nameRejected
  deriving Repr, DecidableEq

/-- Recognizes a `gameState` payload. -/
def Msg.isGameState : Msg → Bool
  | .gameState _ _ _ _ => true
  | _ => false

/-- The `lobby` broadcast payload built by `_broadcastLobbyMsg`. -/
def lobbyMsg (r : Room) : Msg :=
  .lobby (r.players.map fun p => ⟨p.pid, p.name, p.color, p.hat⟩)
    LOBBY_IDLE_TIMEOUT

/-- The `gameState` payload built by `_broadcastGameState` (the source omits
the `collected` key when the list is empty; here an absent key is the empty
list). -/
def gameStateMsg (r : Room) (collected : List CEvent) : Msg :=
  .gameState
    (r.players.map fun p => ⟨p.pid, round p.x, p.score, p.color, p.name, p.hat⟩)
    (r.coins.map fun c =>
      ⟨c.id, (round (c.x * 10) : ℚ) * mkRat 1 10,
        (round (c.y * 10) : ℚ) * mkRat 1 10,
        (round (c.rotation * 100) : ℚ) * mkRat 1 100⟩)
    ((round (r.timeLeft * 10) : ℚ) * mkRat 1 10)
    collected

/-- The settlement loop of `_endGame`: walking the ranked list with its index,
`coinsEarned = score + (winner bonus 50 if rank 0 and score > 0) + 25`. -/
def settleAwards : ℕ → List Player → List RankedPlayer
  | _, [] => []
  | i, p :: rest =>
    let isWinner : Bool := i = 0 && decide (0 < p.score)
    let coinsEarned := p.score + (if isWinner then 50 else 0) + 25
    ⟨p.pid, p.name, p.score, p.color, p.hat, p.userId, coinsEarned, isWinner⟩
      :: settleAwards (i + 1) rest

/-- Stable insertion into a descending-by-score list: the element goes after
every earlier element whose score is at least as large. -/
def insertDesc (p : Player) : List Player → List Player
  | [] => [p]
  | q :: qs =>
    if q.score < p.score then p :: q :: qs else q :: insertDesc p qs

/-- `ranked.sort((a, b) => b.score - a.score)`: a stable sort by descending
score (JS `Array.prototype.sort` is stable), here as a stable insertion
sort. -/
def rankByScore (ps : List Player) : List Player :=
  ps.foldl (fun acc p => insertDesc p acc) []

/-- `_endGame`: enter GAME_OVER, rank players by score, compute the
settlement, and broadcast the `gameOver` payload (also sent to every waiter;
the fire-and-forget D1 `awardCoins` dispatch is external I/O outside this
model — the computed `coinsEarned`/`isWinner` values it receives are the ones
on the payload). -/
def endGame (r : Room) : Room × List Msg :=
  let ranked := settleAwards 0 (rankByScore r.players)
  ({ r with state := .GAME_OVER }, [.gameOver ranked])

/-- Player-reset loop of `_startPlaying`: zero every score and spread the
starting positions evenly across the canvas. -/
def resetForPlay (n : ℕ) : ℕ → List Player → List Player
  | _, [] => []
  | i, p :: ps =>
    { p with
        score := 0
        x := (CANVAS_WIDTH * mkRat 1 (n + 1)) * (i + 1) - PLAYER_WIDTH * mkRat 1 2 }
      :: resetForPlay n (i + 1) ps

/-- `_startPlaying`: enter PLAYING and reset the round state. -/
def startPlaying (now : ℕ) (r : Room) : Room × List Msg :=
  ({ r with
      state := .PLAYING
      timeLeft := GAME_DURATION
      coins := []
      nextCoinId := 1
      coinSpawnAccumulator := 0
      lastPhysicsTime := now
      lastBroadcastTime := 0
      pendingCollected := []
      players := resetForPlay r.players.length 0 r.players }, [])

/-- `_startCountdown`: enter COUNTDOWN and broadcast the first tick. -/
def startCountdown (r : Room) : Room × List Msg :=
  let r' := { r with state := .COUNTDOWN, countdownSeconds := COUNTDOWN_SECONDS }
  (r', [.countdown r'.countdownSeconds])

/-- Reset loop over the surviving roster in `_returnToLobby` (the source
breaks out after `MAX_PLAYERS` entries): reassign round-robin colors, zero
scores, recenter positions. -/
def lobbyReset : ℕ → List Player → List Player
  | _, [] => []
  | i, p :: ps =>
    { p with
        color := PLAYER_COLORS.getD (i % PLAYER_COLORS.length) ""
        score := 0
        x := CANVAS_WIDTH * mkRat 1 2 - PLAYER_WIDTH * mkRat 1 2 }
      :: lobbyReset (i + 1) ps

/-- Promotion loop of `_returnToLobby`: each waiter in join order becomes an
active player while the index is below capacity; the rest stay queued. -/
def promoteLoop : ℕ → List WaitingEntry → List Player × List WaitingEntry
  | _, [] => ([], [])
  | i, w :: ws =>
    if i < MAX_PLAYERS then
      let out := promoteLoop (i + 1) ws
      (⟨w.pid, CANVAS_WIDTH * mkRat 1 2 - PLAYER_WIDTH * mkRat 1 2, 0,
          PLAYER_COLORS.getD (i % PLAYER_COLORS.length) "", w.name, w.hat,
          w.userId⟩ :: out.1, out.2)
    else
      let out := promoteLoop i ws
      (out.1, w :: out.2)

/-- `_returnToLobby`: back to LOBBY, clear the coins, keep at most
`MAX_PLAYERS` survivors (reset), promote waiters up to capacity in join
order, and broadcast the lobby roster. -/
def returnToLobby (r : Room) : Room × List Msg :=
  let kept := lobbyReset 0 (r.players.take MAX_PLAYERS)
  let prom := promoteLoop kept.length r.waitingRoom
  let r' := { r with
      state := RState.LOBBY
      coins := []
      players := kept ++ prom.1
      waitingRoom := prom.2 }
  (r', [lobbyMsg r'])

/-- `_addToWaitingRoom`: append a waiting entry (round-robin color from the
waiting-room size) and send the `waiting` notice. -/
def addToWaitingRoom (pid name hat : String) (userId : Option String)
    (r : Room) : Room × List Msg :=
  let colorIndex := r.waitingRoom.length % PLAYER_COLORS.length
  ({ r with
      waitingRoom := r.waitingRoom ++
        [⟨pid, PLAYER_COLORS.getD colorIndex "", name, hat, userId⟩] },
    [.waiting])

/-- `_addPlayerToLobby`: overflow to the waiting room at capacity, otherwise
append a fresh player (round-robin color, centered position, zero score),
broadcast the lobby roster, and start the countdown if the roster just
reached capacity. -/
def addPlayerToLobby (pid name hat : String) (userId : Option String)
    (r : Room) : Room × List Msg :=
  if MAX_PLAYERS ≤ r.players.length then
    addToWaitingRoom pid name hat userId r
  else
    let colorIndex := r.players.length % PLAYER_COLORS.length
    let r' := { r with
        players := r.players ++
          [⟨pid, CANVAS_WIDTH * mkRat 1 2 - PLAYER_WIDTH * mkRat 1 2, 0,
            PLAYER_COLORS.getD colorIndex "", name, hat, userId⟩] }
    let msgs := [lobbyMsg r']
    if MAX_PLAYERS ≤ r'.players.length then
      let out := startCountdown r'
      (out.1, msgs ++ out.2)
    else
      (r', msgs)

/-- The `join` case of `webSocketMessage`: ignore duplicates, sanitize and
default the name, reject unclean names, validate hat and userId, then admit
to the lobby or to the waiting room. -/
def joinStep (pid rawName rawHat : String) (rawUserId : Option String)
    (r : Room) : Room × List Msg :=
  if r.players.any (fun p => p.pid = pid)
      || r.waitingRoom.any (fun w => w.pid = pid) then
    (r, [])
  else
    let name0 := sanitizeName rawName
    let name := if name0 = "" then "Player" else name0
    if ¬ isNameClean name then
      (r, [.nameRejected])
    else
      let userId := match rawUserId with
        | some u => if isValidUUID u then some u else none
        | none => none
      let hat := if HAT_IDS.contains rawHat then rawHat else "cap"
      if r.state = .LOBBY then
        addPlayerToLobby pid name hat userId r
      else
        addToWaitingRoom pid name hat userId r

/-- The shared elapsed-time computation of the move handler and the PLAYING
alarm: `Math.min((now - lastPhysicsTime) / 1000, MAX_PHYSICS_DT)`. -/
def computeDt (last now : ℕ) : ℚ :=
  min (((now : ℚ) - (last : ℚ)) * mkRat 1 1000) MAX_PHYSICS_DT

/-- Clamp of an incoming x coordinate:
`Math.max(0, Math.min(CANVAS_WIDTH - PLAYER_WIDTH, x))`. -/
def clampX (x : ℚ) : ℚ :=
  max 0 (min (CANVAS_WIDTH - PLAYER_WIDTH) x)

/-- Set the x position of the roster entry with the given id. -/
def setPlayerX (pid : String) (x : ℚ) : List Player → List Player
  | [] => []
  | p :: ps =>
    if p.pid = pid then { p with x := x } :: ps
    else p :: setPlayerX pid x ps

/-- Advance physics by the clamped wall-clock elapsed time and queue the
collected events (`dt` computation, `_advancePhysics` call,
`lastPhysicsTime` update and `pendingCollected.push` shared verbatim by the
move handler and the PLAYING alarm). -/
def physAdvance (sin : ℚ → ℚ) (rands : ℕ → SpawnRand) (now : ℕ)
    (r : Room) : Room :=
  let dt := computeDt r.lastPhysicsTime now
  let adv := advancePhysics sin rands dt r
  { adv.1 with
      lastPhysicsTime := now
      pendingCollected := adv.1.pendingCollected ++ adv.2 }

/-- Tail of the move handler after the physics step: end the game when
`timeLeft` ran out (flooring it at 0), else broadcast at most every
`BROADCAST_THROTTLE_MS`, flushing the pending events. -/
def moveFinish (now : ℕ) (r2 : Room) : Room × List Msg :=
  if r2.timeLeft ≤ 0 then
    endGame { r2 with timeLeft := 0 }
  else if BROADCAST_THROTTLE_MS ≤ (now : ℤ) - (r2.lastBroadcastTime : ℤ) then
    ({ r2 with pendingCollected := [], lastBroadcastTime := now },
      [gameStateMsg r2 r2.pendingCollected])
  else
    (r2, [])

/-- The fast PLAYING path of `webSocketMessage` for a `move` message carrying
a valid number `x`: update the sender's position, advance physics by the
clamped elapsed time, queue the collected events, and finish with the
game-over check and the throttled broadcast. -/
def moveMsg (sin : ℚ → ℚ) (rands : ℕ → SpawnRand) (pid : String) (x : ℚ)
    (now : ℕ) (r : Room) : Room × List Msg :=
  if r.state = .PLAYING && r.players.any (fun p => p.pid = pid) then
    moveFinish now
      (physAdvance sin rands now
        { r with players := setPlayerX pid (clampX x) r.players })
  else
    (r, [])

/-- `webSocketClose`: drop the connection's entries, re-broadcast the lobby
roster while in LOBBY, and return to the lobby at once when the last active
player left mid-round. -/
def closeStep (pid : String) (r : Room) : Room × List Msg :=
  let r1 := { r with
      players := r.players.filter (fun p => ¬ p.pid = pid)
      waitingRoom := r.waitingRoom.filter (fun w => ¬ w.pid = pid) }
  let msgs := if r1.state = .LOBBY then [lobbyMsg r1] else []
  if r1.players.length = 0 && ¬ r1.state = .LOBBY then
    let out := returnToLobby r1
    (out.1, msgs ++ out.2)
  else
    (r1, msgs)

/-- Tail of the PLAYING alarm after the physics step: end the game when
`timeLeft` ran out (flooring it at 0), else broadcast unconditionally,
flushing the pending events. -/
def alarmFinish (now : ℕ) (r2 : Room) : Room × List Msg :=
  if r2.timeLeft ≤ 0 then
    endGame { r2 with timeLeft := 0 }
  else
    ({ r2 with pendingCollected := [], lastBroadcastTime := now },
      [gameStateMsg r2 r2.pendingCollected])

/-- The `alarm()` handler: idle-lobby countdown start, countdown ticks, the
1Hz PLAYING fallback physics step (which broadcasts unconditionally), and the
GAME_OVER display timer returning everyone to the lobby. -/
def alarmStep (sin : ℚ → ℚ) (rands : ℕ → SpawnRand) (now : ℕ) (r : Room) :
    Room × List Msg :=
  match r.state with
  | .LOBBY =>
    if 0 < r.players.length then startCountdown r else (r, [])
  | .COUNTDOWN =>
    let r1 := { r with countdownSeconds := r.countdownSeconds - 1 }
    if r1.countdownSeconds ≤ 0 then
      startPlaying now r1
    else
      (r1, [.countdown r1.countdownSeconds])
  | .PLAYING =>
    if r.players.length = 0 then
      returnToLobby r
    else
      alarmFinish now (physAdvance sin rands now r)
  | .GAME_OVER =>
    returnToLobby r

/-- External stimuli of the room (the hibernation-restore path and the
pre-initialization `move` fallback, which only touches a position, are not
modelled). -/
inductive Trigger where
  | join (pid rawName rawHat : String) (rawUserId : Option String)
  | move (pid : String) (x : ℚ) (now : ℕ)
  | close (pid : String)
  | alarm (now : ℕ)

/-- One handler invocation of the room. -/
def step (sin : ℚ → ℚ) (rands : ℕ → SpawnRand) :
    Trigger → Room → Room × List Msg
  | .join pid nm hat uid, r => joinStep pid nm hat uid r
  | .move pid x now, r => moveMsg sin rands pid x now r
  | .close pid, r => closeStep pid r
  | .alarm now, r => alarmStep sin rands now r

/-- Room states reachable from the constructor state through the modelled
handlers. -/
inductive Reachable (sin : ℚ → ℚ) (rands : ℕ → SpawnRand) : Room → Prop where
  | init : Reachable sin rands initialRoom
  | next (t : Trigger) {r : Room} :
      Reachable sin rands r → Reachable sin rands (step sin rands t r).1

/-- Outcome of one coin in the coin loop: crossed the ground, caught (by the
player with the given id, at the moved position), or kept (already moved). -/
inductive CoinFate where
  | fell
  | caught (playerId : String) (x y : ℚ)
  | kept (c : Coin)
  deriving Repr, DecidableEq

/-- The outcome of one coin of a step, determined by the moved coin and the
roster (only positions and ids matter, not scores). -/
def coinFate (sin : ℚ → ℚ) (dt : ℚ) (ps : List Player) (c : Coin) : CoinFate :=
  let c' := moveCoin sin dt c
  if fellOff c' then .fell
  else
    match ps.find? (fun p => hits c' p) with
    | some p => .caught p.pid c'.x c'.y
    | none => .kept c'

/-- The collected event of a coin outcome, when there is one. -/
def fateEvent : CoinFate → Option CEvent
  | .caught pid x y => some ⟨pid, x, y⟩
  | _ => none

/-- The surviving coin of a coin outcome, when there is one. -/
def fateKept : CoinFate → Option Coin
  | .kept c => some c
  | _ => none

/-- Apply the catch award for each event in order. -/
def creditEvents (evs : List CEvent) (ps : List Player) : List Player :=
  evs.foldl (fun a e => credit e.playerId a) ps

/-- Run a sequence of triggers from a room, accumulating every emitted
message. -/
def runTrace (sin : ℚ → ℚ) (rands : ℕ → SpawnRand) (ts : List Trigger)
    (r : Room) : Room × List Msg :=
  ts.foldl (fun acc t =>
    let out := step sin rands t acc.1
    (out.1, acc.2 ++ out.2)) (r, [])

/-- Fold a trigger list over the room state only. -/
def chainRooms (sin : ℚ → ℚ) (rands : ℕ → SpawnRand) (ts : List Trigger)
    (r : Room) : Room :=
  ts.foldl (fun a t => (step sin rands t a).1) r

/-- Zero sine oracle used for concrete witnesses. -/
def sinZero : ℚ → ℚ := fun _ => 0

/-- Zero randomness oracle used for concrete witnesses. -/
def randsZero : ℕ → SpawnRand := fun _ => ⟨0, 0, 0, 0, 0, 0⟩

/-- A mid-round PLAYING room with one active player about to catch the single
falling coin, and almost no time left. -/
def demoRoom : Room :=
  { initialRoom with
      state := .PLAYING
      players := [⟨"1", 450, 0, "#e74c3c", "Ann", "cap", none⟩]
      coins := [⟨7, 480, 400, 100, 16, 0, 3, 0, 0⟩]
      timeLeft := mkRat 1 10
      lastPhysicsTime := 1000
      lastBroadcastTime := 0 }

/-- The same mid-round catching scenario as `demoRoom` with plenty of round
time remaining. -/
def c6FlushRoom : Room := { demoRoom with timeLeft := 30 }

/-- A PLAYING room with one active player and one queued waiter. -/
def c5Room : Room :=
  { initialRoom with
      state := .PLAYING
      players := [⟨"1", 450, 0, "#e74c3c", "Ann", "cap", none⟩]
      waitingRoom := [⟨"9", "#e74c3c", "Zed", "cap", none⟩] }

/-- A GAME_OVER-bound trace: the catch that ends the round, the GAME_OVER
display alarm, the idle-lobby alarm, and the five countdown ticks into the
next round. -/
def c6Triggers : List Trigger :=
  [.move "1" 450 1200, .alarm 6200, .alarm 7200, .alarm 8200, .alarm 9200,
   .alarm 10200, .alarm 11200, .alarm 12200]

/-- The catch event produced by the first step of `c6Triggers` on
`demoRoom`. -/
def c6Event : CEvent := ⟨"1", 480, 420⟩

/-- The final room and accumulated messages of the `c6Triggers` trace. -/
def c6Run : Room × List Msg := runTrace sinZero randsZero c6Triggers demoRoom

/-- Five players joining an empty lobby. -/
def joinFive : List Trigger :=
  [.join "1" "Ann" "cap" none, .join "2" "Bob" "cap" none,
   .join "3" "Cat" "cap" none, .join "4" "Dan" "cap" none,
   .join "5" "Eve" "cap" none]

/-- The room after five players joined the fresh lobby (roster full, countdown
started). -/
def fullRoom : Room := chainRooms sinZero randsZero joinFive initialRoom

/-- A PLAYING room holding three ranked players with scores 30, 10 and 0. -/
def c4Room : Room :=
  { initialRoom with
      state := .PLAYING
      players :=
        [⟨"2", 100, 10, "#3498db", "Bob", "cap", none⟩,
         ⟨"1", 200, 30, "#e74c3c", "Ann", "cap", some "123e4567-e89b-42d3-a456-426614174000"⟩,
         ⟨"3", 300, 0, "#2ecc71", "Cat", "cap", none⟩] }

/-- Elapsed time between steps is never negative once the wall clock moved
forward. -/
lemma computeDt_nonneg {last now : ℕ} (h : last ≤ now) :
    0 ≤ computeDt last now := by
  unfold computeDt MAX_PHYSICS_DT
  rw [Rat.mkRat_eq_div, Rat.mkRat_eq_div]
  apply le_min
  · have hc : (last : ℚ) ≤ (now : ℚ) := by exact_mod_cast h
    have h1000 : (0:ℚ) ≤ 1 / 1000 := by norm_num
    have := mul_nonneg (by linarith : (0:ℚ) ≤ (now : ℚ) - last) h1000
    linarith
  · norm_num

/-- Once at least one clamp ceiling of wall time elapsed, the computed step
size is exactly the ceiling. -/
lemma computeDt_far {last now : ℕ} (h : last + 200 ≤ now) :
    computeDt last now = MAX_PHYSICS_DT := by
  unfold computeDt MAX_PHYSICS_DT
  apply min_eq_right
  rw [Rat.mkRat_eq_div, Rat.mkRat_eq_div]
  have hc : ((last : ℚ) + 200) ≤ (now : ℚ) := by exact_mod_cast h
  linarith

/-- The computed step size never exceeds the clamp ceiling. -/
lemma computeDt_le {last now : ℕ} : computeDt last now ≤ MAX_PHYSICS_DT :=
  min_le_right _ _

lemma advancePhysics_timeLeft (sin : ℚ → ℚ) (rands : ℕ → SpawnRand)
    (dt : ℚ) (r : Room) :
    (advancePhysics sin rands dt r).1.timeLeft = r.timeLeft - dt := rfl

lemma advancePhysics_state (sin : ℚ → ℚ) (rands : ℕ → SpawnRand)
    (dt : ℚ) (r : Room) :
    (advancePhysics sin rands dt r).1.state = r.state := rfl

lemma advancePhysics_pending (sin : ℚ → ℚ) (rands : ℕ → SpawnRand)
    (dt : ℚ) (r : Room) :
    (advancePhysics sin rands dt r).1.pendingCollected =
      r.pendingCollected := rfl

lemma endGame_timeLeft (r : Room) : (endGame r).1.timeLeft = r.timeLeft := rfl

lemma physAdvance_timeLeft (sin : ℚ → ℚ) (rands : ℕ → SpawnRand) (now : ℕ)
    (r : Room) :
    (physAdvance sin rands now r).timeLeft =
      r.timeLeft - computeDt r.lastPhysicsTime now := rfl

lemma physAdvance_state (sin : ℚ → ℚ) (rands : ℕ → SpawnRand) (now : ℕ)
    (r : Room) : (physAdvance sin rands now r).state = r.state := rfl

lemma physAdvance_lastBroadcastTime (sin : ℚ → ℚ) (rands : ℕ → SpawnRand)
    (now : ℕ) (r : Room) :
    (physAdvance sin rands now r).lastBroadcastTime =
      r.lastBroadcastTime := rfl

lemma physAdvance_pending (sin : ℚ → ℚ) (rands : ℕ → SpawnRand) (now : ℕ)
    (r : Room) :
    (physAdvance sin rands now r).pendingCollected =
      r.pendingCollected ++
        (advancePhysics sin rands (computeDt r.lastPhysicsTime now) r).2 := rfl

/-- The move-handler tail floors `timeLeft` at 0 and otherwise leaves it. -/
lemma moveFinish_timeLeft (now : ℕ) (r2 : Room) :
    (moveFinish now r2).1.timeLeft = max 0 r2.timeLeft := by
  unfold moveFinish
  split
  case isTrue h =>
    rw [endGame_timeLeft]
    dsimp only
    exact (max_eq_left h).symm
  case isFalse h =>
    push_neg at h
    split
    · exact (max_eq_right h.le).symm
    · exact (max_eq_right h.le).symm

/-- The alarm tail floors `timeLeft` at 0 and otherwise leaves it. -/
lemma alarmFinish_timeLeft (now : ℕ) (r2 : Room) :
    (alarmFinish now r2).1.timeLeft = max 0 r2.timeLeft := by
  unfold alarmFinish
  split
  case isTrue h =>
    rw [endGame_timeLeft]
    dsimp only
    exact (max_eq_left h).symm
  case isFalse h =>
    push_neg at h
    exact (max_eq_right h.le).symm

/-- Reduction of the alarm handler in the PLAYING state. -/
lemma alarmStep_playing (sin : ℚ → ℚ) (rands : ℕ → SpawnRand) (now : ℕ)
    (r : Room) (h : r.state = RState.PLAYING) :
    alarmStep sin rands now r =
      if r.players.length = 0 then returnToLobby r
      else alarmFinish now (physAdvance sin rands now r) := by
  obtain ⟨st, pl, wr, cs, nci, tl, cd, ca, npi, lpt, lbt, pc⟩ := r
  cases h
  rfl

/-- Reduction of the move handler when the fast PLAYING path runs. -/
lemma moveMsg_run (sin : ℚ → ℚ) (rands : ℕ → SpawnRand) (pid : String)
    (x : ℚ) (now : ℕ) (r : Room)
    (hst : r.state = RState.PLAYING)
    (hp : r.players.any (fun p => p.pid = pid) = true) :
    moveMsg sin rands pid x now r =
      moveFinish now
        (physAdvance sin rands now
          { r with players := setPlayerX pid (clampX x) r.players }) := by
  unfold moveMsg
  rw [if_pos]
  rw [hst, hp]
  simp

/-- Reduction of the move handler when the fast path does not run. -/
lemma moveMsg_skip (sin : ℚ → ℚ) (rands : ℕ → SpawnRand) (pid : String)
    (x : ℚ) (now : ℕ) (r : Room)
    (hcond : ¬ (r.state = RState.PLAYING ∧
      r.players.any (fun p => p.pid = pid) = true)) :
    moveMsg sin rands pid x now r = (r, []) := by
  unfold moveMsg
  rw [if_neg]
  intro hc
  simp only [Bool.and_eq_true, decide_eq_true_eq] at hc
  exact hcond hc

lemma endGame_state (r : Room) : (endGame r).1.state = .GAME_OVER := rfl

lemma endGame_players (r : Room) : (endGame r).1.players = r.players := rfl

/-- C2 helper: the coinsEarned of every non-first ranked player is score plus
the flat participation bonus only. -/
lemma settleAwards_tail (i : ℕ) (ps : List Player) :
    (settleAwards (i + 1) ps).map RankedPlayer.coinsEarned =
      ps.map (fun q => q.score + 25) := by
  induction ps generalizing i with
  | nil => rfl
  | cons p rest ih =>
    simp only [settleAwards, List.map_cons, ih]
    norm_num

/-- C4: at the PLAYING to GAME_OVER transition the settlement gives each
ranked player score plus the flat participation bonus of 25, the rank-0
player additionally the winner bonus of 50 exactly when that score is
strictly positive; on ranked scores [30, 10, 0] the awards are
[105, 35, 25]. -/
theorem c4_settlement_awards (ps : List Player) :
    ((settleAwards 0 ps).map RankedPlayer.coinsEarned =
      match ps with
      | [] => []
      | p :: rest =>
        (p.score + (if 0 < p.score then 50 else 0) + 25)
          :: rest.map (fun q => q.score + 25)) ∧
    (endGame c4Room).2 =
      [Msg.gameOver
        [⟨"1", "Ann", 30, "#e74c3c", "cap",
            some "123e4567-e89b-42d3-a456-426614174000", 105, true⟩,
         ⟨"2", "Bob", 10, "#3498db", "cap", none, 35, false⟩,
         ⟨"3", "Cat", 0, "#2ecc71", "cap", none, 25, false⟩]] ∧
    ((settleAwards 0 (rankByScore c4Room.players)).map
        RankedPlayer.coinsEarned = [105, 35, 25]) := by
  refine ⟨?_, by decide, by decide⟩
  match ps with
  | [] => rfl
  | p :: rest =>
    simp only [settleAwards, List.map_cons, settleAwards_tail]
    congr 1
    by_cases h : 0 < p.score
    · simp [h]
    · simp [h]

/-- C10: a join message from a connection whose player id is already active
or already waiting leaves the room unchanged and sends nothing. -/
theorem c10_duplicate_join_noop (pid rawName rawHat : String)
    (rawUserId : Option String) (r : Room)
    (hdup : (r.players.any (fun p => p.pid = pid)
      || r.waitingRoom.any (fun w => w.pid = pid)) = true) :
    joinStep pid rawName rawHat rawUserId r = (r, []) := by
  unfold joinStep
  simp only [hdup]
  rfl

/-- Witness for C10 at a concrete duplicate join. -/
theorem c10_witness :
    ((c5Room.players.any (fun p => p.pid = "1")
        || c5Room.waitingRoom.any (fun w => w.pid = "1")) = true) ∧
      joinStep "1" "Ann" "cap" none c5Room = (c5Room, []) :=
  ⟨by decide, c10_duplicate_join_noop "1" "Ann" "cap" none c5Room (by decide)⟩

/-- C2: any physics trigger whose wall-clock gap reaches the 200 ms clamp
ceiling computes a step of exactly `MAX_PHYSICS_DT`, so the simulated update
equals the one of the maximum clamped step; in particular a 10 second gap and
a 200 ms gap compute the same step. -/
theorem c2_dt_clamped (sin : ℚ → ℚ) (rands : ℕ → SpawnRand) (r : Room)
    (last now : ℕ) (h : last + 200 ≤ now) :
    computeDt last now = MAX_PHYSICS_DT ∧
    advancePhysics sin rands (computeDt last now) r =
      advancePhysics sin rands MAX_PHYSICS_DT r ∧
    computeDt last (last + 10000) = computeDt last (last + 200) := by
  refine ⟨computeDt_far h, ?_, ?_⟩
  · rw [computeDt_far h]
  · rw [computeDt_far (by omega), computeDt_far (by omega)]

/-- Witness for C2 at a concrete 10-second gap. -/
theorem c2_witness :
    (1000 + 200 ≤ 11000) ∧
      (computeDt 1000 11000 = MAX_PHYSICS_DT ∧
        advancePhysics sinZero randsZero (computeDt 1000 11000) demoRoom =
          advancePhysics sinZero randsZero MAX_PHYSICS_DT demoRoom ∧
        computeDt 1000 (1000 + 10000) = computeDt 1000 (1000 + 200)) :=
  ⟨by omega, c2_dt_clamped sinZero randsZero demoRoom 1000 11000 (by omega)⟩

/-- C1: a physics step taken while PLAYING (movement-message trigger or
fallback alarm) decrements `timeLeft` by the clamped step `dt` and floors it
at 0, so `timeLeft` never increases and is never negative after any step. -/
theorem c1_timeLeft_monotone (sin : ℚ → ℚ) (rands : ℕ → SpawnRand)
    (pid : String) (x : ℚ) (now : ℕ) (r : Room)
    (h0 : 0 ≤ r.timeLeft) (hlast : r.lastPhysicsTime ≤ now) :
    ((moveMsg sin rands pid x now r).1.timeLeft ≤ r.timeLeft ∧
      0 ≤ (moveMsg sin rands pid x now r).1.timeLeft ∧
      ((r.state = .PLAYING ∧
          r.players.any (fun p => p.pid = pid) = true) →
        (moveMsg sin rands pid x now r).1.timeLeft =
          max 0 (r.timeLeft - computeDt r.lastPhysicsTime now))) ∧
    (r.state = .PLAYING →
      (alarmStep sin rands now r).1.timeLeft ≤ r.timeLeft ∧
        0 ≤ (alarmStep sin rands now r).1.timeLeft ∧
        (0 < r.players.length →
          (alarmStep sin rands now r).1.timeLeft =
            max 0 (r.timeLeft - computeDt r.lastPhysicsTime now))) := by
  have hdt : 0 ≤ computeDt r.lastPhysicsTime now := computeDt_nonneg hlast
  have hmax0 : 0 ≤ max 0 (r.timeLeft - computeDt r.lastPhysicsTime now) :=
    le_max_left _ _
  have hmax1 : max 0 (r.timeLeft - computeDt r.lastPhysicsTime now) ≤
      r.timeLeft := max_le h0 (by linarith)
  constructor
  · by_cases hcond : r.state = RState.PLAYING ∧
        r.players.any (fun p => p.pid = pid) = true
    · have hrun := moveMsg_run sin rands pid x now r hcond.1 hcond.2
      rw [hrun, moveFinish_timeLeft, physAdvance_timeLeft]
      exact ⟨hmax1, hmax0, fun _ => rfl⟩
    · rw [moveMsg_skip sin rands pid x now r hcond]
      exact ⟨le_refl _, h0, fun hplay => absurd hplay hcond⟩
  · intro hplay
    rw [alarmStep_playing sin rands now r hplay]
    split
    case isTrue hzero =>
      unfold returnToLobby
      exact ⟨le_refl _, h0, fun hpos => by omega⟩
    case isFalse hzero =>
      rw [alarmFinish_timeLeft, physAdvance_timeLeft]
      exact ⟨hmax1, hmax0, fun _ => rfl⟩

/-- Witness for C1 at a concrete catching step (the game ends and `timeLeft`
is floored at 0). -/
theorem c1_witness :
    (0 ≤ demoRoom.timeLeft ∧ demoRoom.lastPhysicsTime ≤ 1200) ∧
      (((moveMsg sinZero randsZero "1" 450 1200 demoRoom).1.timeLeft ≤
          demoRoom.timeLeft ∧
        0 ≤ (moveMsg sinZero randsZero "1" 450 1200 demoRoom).1.timeLeft ∧
        ((demoRoom.state = .PLAYING ∧
            demoRoom.players.any (fun p => p.pid = "1") = true) →
          (moveMsg sinZero randsZero "1" 450 1200 demoRoom).1.timeLeft =
            max 0 (demoRoom.timeLeft -
              computeDt demoRoom.lastPhysicsTime 1200))) ∧
      (demoRoom.state = .PLAYING →
        (alarmStep sinZero randsZero 1200 demoRoom).1.timeLeft ≤
            demoRoom.timeLeft ∧
          0 ≤ (alarmStep sinZero randsZero 1200 demoRoom).1.timeLeft ∧
          (0 < demoRoom.players.length →
            (alarmStep sinZero randsZero 1200 demoRoom).1.timeLeft =
              max 0 (demoRoom.timeLeft -
                computeDt demoRoom.lastPhysicsTime 1200)))) :=
  ⟨⟨by norm_num [demoRoom, initialRoom], by norm_num [demoRoom, initialRoom]⟩,
    c1_timeLeft_monotone sinZero randsZero "1" 450 1200 demoRoom
      (by norm_num [demoRoom, initialRoom]) (by norm_num [demoRoom, initialRoom])⟩

/-- The lobby reset keeps ids (and order) of the surviving roster. -/
lemma lobbyReset_pids (ps : List Player) :
    ∀ i, (lobbyReset i ps).map Player.pid = ps.map Player.pid := by
  induction ps with
  | nil => intro i; rfl
  | cons p rest ih =>
    intro i
    simp only [lobbyReset, List.map_cons, ih]

/-- The promotion loop takes waiters in join order up to remaining capacity
and leaves exactly the rest queued. -/
lemma promoteLoop_spec (ws : List WaitingEntry) :
    ∀ i, (promoteLoop i ws).1.map Player.pid =
        (ws.map WaitingEntry.pid).take (MAX_PLAYERS - i) ∧
      (promoteLoop i ws).2 = ws.drop (MAX_PLAYERS - i) := by
  induction ws with
  | nil => intro i; constructor <;> simp [promoteLoop]
  | cons w ws ih =>
    intro i
    by_cases hi : i < MAX_PLAYERS
    · obtain ⟨k, hk⟩ : ∃ k, MAX_PLAYERS - i = k + 1 :=
        ⟨MAX_PLAYERS - i - 1, by omega⟩
      have hk' : MAX_PLAYERS - (i + 1) = k := by omega
      simp only [promoteLoop, if_pos hi, List.map_cons, (ih (i + 1)).1,
        (ih (i + 1)).2, hk, hk', List.take_succ_cons, List.drop_succ_cons]
      exact ⟨trivial, trivial⟩
    · have h0 : MAX_PLAYERS - i = 0 := by omega
      simp only [promoteLoop, if_neg hi, (ih i).1, (ih i).2, h0,
        List.take_zero, List.drop_zero, List.map_nil]
      exact ⟨trivial, trivial⟩

/-- C5 counterexample: with one active player and one waiter, the last
player's disconnect during PLAYING immediately returns the room to the lobby
and promotes the waiter — a promotion at a transition whose source state is
PLAYING, not GAME_OVER. -/
theorem c5_counterexample_promotion_on_abandon :
    c5Room.state = RState.PLAYING ∧
    (closeStep "1" c5Room).1.state = RState.LOBBY ∧
    (closeStep "1" c5Room).1.players.map Player.pid = ["9"] ∧
    (closeStep "1" c5Room).1.waitingRoom = [] := by
  refine ⟨rfl, ?_, ?_, ?_⟩ <;> decide

/-- Full characterization of `_returnToLobby`: survivors are kept first (at
most `MAX_PLAYERS`), waiters are promoted in join order up to the remaining
capacity, the rest stay queued. -/
lemma returnToLobby_spec (r : Room) :
    (returnToLobby r).1.players.map Player.pid =
      (r.players.map Player.pid).take MAX_PLAYERS ++
        (r.waitingRoom.map WaitingEntry.pid).take
          (MAX_PLAYERS - min MAX_PLAYERS r.players.length) ∧
    (returnToLobby r).1.waitingRoom =
      r.waitingRoom.drop (MAX_PLAYERS - min MAX_PLAYERS r.players.length) ∧
    (returnToLobby r).1.players.length ≤ MAX_PLAYERS := by
  have hkeptlen : (lobbyReset 0 (r.players.take MAX_PLAYERS)).length =
      min MAX_PLAYERS r.players.length := by
    have := congrArg List.length (lobbyReset_pids (r.players.take MAX_PLAYERS) 0)
    simpa [List.length_take] using this
  unfold returnToLobby
  dsimp only
  refine ⟨?_, ?_, ?_⟩
  · rw [List.map_append, lobbyReset_pids, List.map_take, hkeptlen,
      (promoteLoop_spec r.waitingRoom _).1]
  · rw [hkeptlen, (promoteLoop_spec r.waitingRoom _).2]
  · rw [List.length_append, hkeptlen]
    have hp := congrArg List.length (promoteLoop_spec r.waitingRoom
      (min MAX_PLAYERS r.players.length)).1
    rw [List.length_map, List.length_take, List.length_map] at hp
    omega

/-- C5 (amended): whenever `_returnToLobby` runs — at the GAME_OVER display
timer and also at the immediate return to lobby when the roster empties
mid-round — waiters are promoted in strict join (FIFO) order, bounded by the
remaining capacity (`MAX_PLAYERS` minus surviving active players, who are
kept first), and exactly the unpromoted waiters remain queued. -/
theorem c5_promotion_fifo_capacity (r : Room) :
    (returnToLobby r).1.players.map Player.pid =
      (r.players.map Player.pid).take MAX_PLAYERS ++
        (r.waitingRoom.map WaitingEntry.pid).take
          (MAX_PLAYERS - min MAX_PLAYERS r.players.length) ∧
    (returnToLobby r).1.waitingRoom =
      r.waitingRoom.drop (MAX_PLAYERS - min MAX_PLAYERS r.players.length) ∧
    (returnToLobby r).1.players.length ≤ MAX_PLAYERS :=
  returnToLobby_spec r

/-- An object that crossed the ground inside the coin loop is skipped
entirely: no credit, no event, no survival. -/
lemma processRev_skipFell (sin : ℚ → ℚ) (dt : ℚ) (c : Coin)
    (hf : fellOff (moveCoin sin dt c) = true) :
    ∀ (as bs : List Coin) (ps : List Player),
      processRev sin dt ps (as ++ c :: bs) = processRev sin dt ps (as ++ bs) := by
  intro as
  induction as with
  | nil =>
    intro bs ps
    simp only [List.nil_append, processRev, hf, if_true]
  | cons a as ih =>
    intro bs ps
    simp only [List.cons_append, processRev, List.append_eq, ih]

/-- C8: a falling object whose (moved) Y coordinate exceeds the ground line
is removed from the coin set with no side effect: deleting it from the input
leaves the step's surviving coins, roster and collected events unchanged. -/
theorem c8_ground_removal_no_side_effect (sin : ℚ → ℚ) (dt : ℚ)
    (ps : List Player) (xs ys : List Coin) (c : Coin)
    (hf : fellOff (moveCoin sin dt c) = true) :
    processCoins sin dt ps (xs ++ c :: ys) = processCoins sin dt ps (xs ++ ys) := by
  unfold processCoins
  have h1 : (xs ++ c :: ys).reverse = ys.reverse ++ c :: xs.reverse := by
    simp
  have h2 : (xs ++ ys).reverse = ys.reverse ++ xs.reverse := by
    simp
  rw [h1, h2, processRev_skipFell sin dt c hf]

/-- Witness for C8 at a concrete ground-crossing coin. -/
theorem c8_witness :
    fellOff (moveCoin sinZero (mkRat 1 5) ⟨8, 100, 600, 0, 16, 0, 0, 0, 0⟩) = true ∧
      processCoins sinZero (mkRat 1 5) demoRoom.players
          ([] ++ ⟨8, 100, 600, 0, 16, 0, 0, 0, 0⟩ :: demoRoom.coins) =
        processCoins sinZero (mkRat 1 5) demoRoom.players ([] ++ demoRoom.coins) :=
  ⟨by decide,
    c8_ground_removal_no_side_effect sinZero (mkRat 1 5) demoRoom.players []
      demoRoom.coins ⟨8, 100, 600, 0, 16, 0, 0, 0, 0⟩ (by decide)⟩

lemma credit_length (pid : String) (ps : List Player) :
    (credit pid ps).length = ps.length := by
  induction ps with
  | nil => rfl
  | cons p rest ih =>
    unfold credit
    split <;> simp [ih]

lemma setPlayerX_length (pid : String) (x : ℚ) (ps : List Player) :
    (setPlayerX pid x ps).length = ps.length := by
  induction ps with
  | nil => rfl
  | cons p rest ih =>
    unfold setPlayerX
    split <;> simp [ih]

/-- The coin loop returns a roster of the same size. -/
lemma processRev_players_length (sin : ℚ → ℚ) (dt : ℚ) :
    ∀ (cs : List Coin) (ps : List Player),
      ((processRev sin dt ps cs).2.1).length = ps.length := by
  intro cs
  induction cs with
  | nil => intro ps; rfl
  | cons c rest ih =>
    intro ps
    unfold processRev
    dsimp only
    split
    · exact ih ps
    · split
      · next p _ =>
        have := ih (credit p.pid ps)
        simpa [credit_length] using this
      · exact ih ps

lemma advancePhysics_players_length (sin : ℚ → ℚ) (rands : ℕ → SpawnRand)
    (dt : ℚ) (r : Room) :
    ((advancePhysics sin rands dt r).1.players).length = r.players.length := by
  unfold advancePhysics processCoins
  exact processRev_players_length sin dt _ r.players

lemma physAdvance_players_length (sin : ℚ → ℚ) (rands : ℕ → SpawnRand)
    (now : ℕ) (r : Room) :
    ((physAdvance sin rands now r).players).length = r.players.length := by
  unfold physAdvance
  exact advancePhysics_players_length sin rands _ r

lemma moveFinish_players_length (now : ℕ) (r2 : Room) :
    ((moveFinish now r2).1.players).length = r2.players.length := by
  unfold moveFinish
  split
  · rfl
  · split <;> rfl

lemma alarmFinish_players_length (now : ℕ) (r2 : Room) :
    ((alarmFinish now r2).1.players).length = r2.players.length := by
  unfold alarmFinish
  split <;> rfl

lemma resetForPlay_length (n : ℕ) :
    ∀ (i : ℕ) (ps : List Player), (resetForPlay n i ps).length = ps.length := by
  intro i ps
  induction ps generalizing i with
  | nil => rfl
  | cons p rest ih => simp [resetForPlay, ih]

/-- Admission through `_addPlayerToLobby` keeps the roster within capacity. -/
lemma addPlayerToLobby_players_le (pid name hat : String)
    (uid : Option String) (r : Room)
    (h : r.players.length ≤ MAX_PLAYERS) :
    ((addPlayerToLobby pid name hat uid r).1.players).length ≤
      MAX_PLAYERS := by
  unfold addPlayerToLobby
  split
  · exact h
  case isFalse hlt =>
    dsimp only
    split
    all_goals
      simp only [startCountdown, List.length_append, List.length_cons,
        List.length_nil]
      unfold MAX_PLAYERS at hlt ⊢
      omega

/-- Every join-handler outcome keeps the roster within capacity. -/
lemma joinStep_players_le (pid rawName rawHat : String)
    (rawUserId : Option String) (r : Room)
    (h : r.players.length ≤ MAX_PLAYERS) :
    ((joinStep pid rawName rawHat rawUserId r).1.players).length ≤
      MAX_PLAYERS := by
  unfold joinStep
  split
  · exact h
  · dsimp only
    split
    all_goals
      split
      · exact h
      · split
        · exact addPlayerToLobby_players_le _ _ _ _ r h
        · exact h

lemma moveMsg_players_le (sin : ℚ → ℚ) (rands : ℕ → SpawnRand)
    (pid : String) (x : ℚ) (now : ℕ) (r : Room)
    (h : r.players.length ≤ MAX_PLAYERS) :
    ((moveMsg sin rands pid x now r).1.players).length ≤ MAX_PLAYERS := by
  unfold moveMsg
  split
  · rw [moveFinish_players_length, physAdvance_players_length]
    dsimp only
    rw [setPlayerX_length]
    exact h
  · exact h

lemma returnToLobby_players_le (r : Room) :
    ((returnToLobby r).1.players).length ≤ MAX_PLAYERS :=
  (returnToLobby_spec r).2.2

lemma closeStep_players_le (pid : String) (r : Room)
    (h : r.players.length ≤ MAX_PLAYERS) :
    ((closeStep pid r).1.players).length ≤ MAX_PLAYERS := by
  unfold closeStep
  dsimp only
  split
  · exact returnToLobby_players_le _
  · split
    · exact le_trans (List.length_filter_le _ _) h
    · exact le_trans (List.length_filter_le _ _) h

lemma alarmStep_players_le (sin : ℚ → ℚ) (rands : ℕ → SpawnRand) (now : ℕ)
    (r : Room) (h : r.players.length ≤ MAX_PLAYERS) :
    ((alarmStep sin rands now r).1.players).length ≤ MAX_PLAYERS := by
  obtain ⟨st, pl, wr, cs, nci, tl, cd, ca, npi, lpt, lbt, pc⟩ := r
  cases st
  case LOBBY =>
    unfold alarmStep
    try dsimp only
    split
    · exact h
    · exact h
  case COUNTDOWN =>
    unfold alarmStep
    try dsimp only
    split
    · simp only [startPlaying]
      try dsimp only
      rw [resetForPlay_length]
      exact h
    · exact h
  case PLAYING =>
    unfold alarmStep
    try dsimp only
    split
    · exact returnToLobby_players_le _
    · rw [alarmFinish_players_length, physAdvance_players_length]
      exact h
  case GAME_OVER =>
    exact returnToLobby_players_le _

/-- Every handler keeps the roster within capacity. -/
lemma step_players_le (sin : ℚ → ℚ) (rands : ℕ → SpawnRand) (t : Trigger)
    (r : Room) (h : r.players.length ≤ MAX_PLAYERS) :
    ((step sin rands t r).1.players).length ≤ MAX_PLAYERS := by
  cases t with
  | join pid nm hat uid => exact joinStep_players_le pid nm hat uid r h
  | move pid x now => exact moveMsg_players_le sin rands pid x now r h
  | close pid => exact closeStep_players_le pid r h
  | alarm now => exact alarmStep_players_le sin rands now r h

/-- The roster-capacity invariant holds in every reachable room state. -/
lemma reachable_players_le (sin : ℚ → ℚ) (rands : ℕ → SpawnRand) (r : Room)
    (h : Reachable sin rands r) : r.players.length ≤ MAX_PLAYERS := by
  induction h with
  | init => norm_num [initialRoom, MAX_PLAYERS]
  | next t hr ih => exact step_players_le _ _ t _ ih

/-- Chains of handler invocations preserve reachability. -/
lemma reachable_chain (sin : ℚ → ℚ) (rands : ℕ → SpawnRand) :
    ∀ (ts : List Trigger) (r : Room), Reachable sin rands r →
      Reachable sin rands (chainRooms sin rands ts r) := by
  intro ts
  induction ts with
  | nil => intro r h; exact h
  | cons t ts ih =>
    intro r h
    exact ih _ (Reachable.next t h)

/-- C7: in every reachable room state the active roster holds at most
`MAX_PLAYERS` (5) players, and a join arriving while the roster is full (or
while the state is not LOBBY) produces only a waiting-room entry and a
`waiting` message, never a sixth active slot. -/
theorem c7_roster_capacity (sin : ℚ → ℚ) (rands : ℕ → SpawnRand) (r : Room)
    (pid rawName rawHat : String) (rawUserId : Option String)
    (hreach : Reachable sin rands r)
    (hfull : MAX_PLAYERS ≤ r.players.length ∨ ¬ r.state = RState.LOBBY)
    (hfresh : (r.players.any (fun p => p.pid = pid)
      || r.waitingRoom.any (fun w => w.pid = pid)) = false)
    (hclean : isNameClean
      (if sanitizeName rawName = "" then "Player" else sanitizeName rawName) =
        true) :
    r.players.length ≤ MAX_PLAYERS ∧
    (joinStep pid rawName rawHat rawUserId r).1.players = r.players ∧
    (joinStep pid rawName rawHat rawUserId r).2 = [Msg.waiting] := by
  refine ⟨reachable_players_le sin rands r hreach, ?_⟩
  unfold joinStep
  rw [if_neg (by simp [hfresh])]
  dsimp only
  rw [if_neg (by simp [hclean])]
  rcases hfull with hfull | hfull
  · split
    · unfold addPlayerToLobby
      rw [if_pos hfull]
      exact ⟨rfl, rfl⟩
    · exact ⟨rfl, rfl⟩
  · rw [if_neg hfull]
    exact ⟨rfl, rfl⟩

/-- Witness for C7: after five joins the roster is full and in COUNTDOWN; a
sixth join is diverted to the waiting room. -/
theorem c7_witness :
    (MAX_PLAYERS ≤ fullRoom.players.length ∨ ¬ fullRoom.state = RState.LOBBY) ∧
      (fullRoom.players.length ≤ MAX_PLAYERS ∧
        (joinStep "6" "Zed" "cap" none fullRoom).1.players =
          fullRoom.players ∧
        (joinStep "6" "Zed" "cap" none fullRoom).2 = [Msg.waiting]) :=
  ⟨Or.inl (by decide),
    c7_roster_capacity sinZero randsZero fullRoom "6" "Zed" "cap" none
      (reachable_chain sinZero randsZero joinFive initialRoom Reachable.init)
      (Or.inl (by decide)) (by decide) (by decide)⟩

/-- C9: a join whose supplied name sanitizes to the empty string still
succeeds under the default display name "Player" (as an active player or a
waiting entry, never a rejection); a `nameRejected` reply is sent exactly
when the effective sanitized name fails the profanity filter, and then no
player or waiting entry is created (the room is untouched). -/
theorem c9_empty_name_defaults (pid rawName rawHat : String)
    (rawUserId : Option String) (r : Room)
    (hfresh : (r.players.any (fun p => p.pid = pid)
      || r.waitingRoom.any (fun w => w.pid = pid)) = false) :
    (sanitizeName rawName = "" →
      Msg.nameRejected ∉ (joinStep pid rawName rawHat rawUserId r).2 ∧
      ((joinStep pid rawName rawHat rawUserId r).1.players.map
          (fun p => (p.pid, p.name)) =
        r.players.map (fun p => (p.pid, p.name)) ++ [(pid, "Player")] ∨
       (joinStep pid rawName rawHat rawUserId r).1.waitingRoom.map
          (fun w => (w.pid, w.name)) =
        r.waitingRoom.map (fun w => (w.pid, w.name)) ++ [(pid, "Player")])) ∧
    ((joinStep pid rawName rawHat rawUserId r).2 = [Msg.nameRejected] ↔
      isNameClean (if sanitizeName rawName = "" then "Player"
        else sanitizeName rawName) = false) ∧
    (isNameClean (if sanitizeName rawName = "" then "Player"
        else sanitizeName rawName) = false →
      (joinStep pid rawName rawHat rawUserId r).1 = r) := by
  unfold joinStep
  rw [if_neg (by simp [hfresh])]
  dsimp only
  by_cases hemp : sanitizeName rawName = ""
  · simp only [hemp, if_pos rfl, reduceIte]
    have hplayer : isNameClean "Player" = true := by decide
    rw [if_neg (by simp [hplayer])]
    refine ⟨fun _ => ?_, ?_, ?_⟩
    · by_cases hst : r.state = RState.LOBBY
      · rw [if_pos hst]
        unfold addPlayerToLobby
        split
        · unfold addToWaitingRoom
          refine ⟨by simp, Or.inr ?_⟩
          simp
        · dsimp only
          constructor
          · split_ifs <;> simp [startCountdown, lobbyMsg]
          · refine Or.inl ?_
            split_ifs <;> simp [startCountdown]
      · rw [if_neg hst]
        unfold addToWaitingRoom
        refine ⟨by simp, Or.inr ?_⟩
        simp
    · rw [hplayer]
      simp only [Bool.true_eq_false, iff_false]
      intro hcontra
      by_cases hst : r.state = RState.LOBBY
      · rw [if_pos hst] at hcontra
        unfold addPlayerToLobby at hcontra
        revert hcontra
        split
        · unfold addToWaitingRoom
          simp
        · dsimp only
          split_ifs <;> simp [startCountdown, lobbyMsg]
      · rw [if_neg hst] at hcontra
        unfold addToWaitingRoom at hcontra
        simp at hcontra
    · rw [hplayer]
      intro hcontra
      simp at hcontra
  · simp only [if_neg hemp]
    by_cases hcl : isNameClean (sanitizeName rawName) = true
    · rw [if_neg (by simp [hcl])]
      refine ⟨fun he => absurd he hemp, ?_, ?_⟩
      · rw [hcl]
        simp only [Bool.true_eq_false, iff_false]
        intro hcontra
        by_cases hst : r.state = RState.LOBBY
        · rw [if_pos hst] at hcontra
          unfold addPlayerToLobby at hcontra
          revert hcontra
          split
          · unfold addToWaitingRoom
            simp
          · dsimp only
            split_ifs <;> simp [startCountdown, lobbyMsg]
        · rw [if_neg hst] at hcontra
          unfold addToWaitingRoom at hcontra
          simp at hcontra
      · rw [hcl]
        intro hcontra
        simp at hcontra
    · rw [if_pos (by simp [hcl])]
      refine ⟨fun he => absurd he hemp, ?_, fun _ => rfl⟩
      constructor
      · intro _
        simp only [Bool.not_eq_true] at hcl
        exact hcl
      · intro _
        rfl

/-- Witness for C9: joining with the name "!!!" (which sanitizes to the empty
string) on a fresh lobby. -/
theorem c9_witness :
    ((initialRoom.players.any (fun p => p.pid = "1")
        || initialRoom.waitingRoom.any (fun w => w.pid = "1")) = false) ∧
      ((sanitizeName "!!!" = "" →
        Msg.nameRejected ∉ (joinStep "1" "!!!" "cap" none initialRoom).2 ∧
        ((joinStep "1" "!!!" "cap" none initialRoom).1.players.map
            (fun p => (p.pid, p.name)) =
          initialRoom.players.map (fun p => (p.pid, p.name)) ++
            [("1", "Player")] ∨
         (joinStep "1" "!!!" "cap" none initialRoom).1.waitingRoom.map
            (fun w => (w.pid, w.name)) =
          initialRoom.waitingRoom.map (fun w => (w.pid, w.name)) ++
            [("1", "Player")])) ∧
      ((joinStep "1" "!!!" "cap" none initialRoom).2 = [Msg.nameRejected] ↔
        isNameClean (if sanitizeName "!!!" = "" then "Player"
          else sanitizeName "!!!") = false) ∧
      (isNameClean (if sanitizeName "!!!" = "" then "Player"
          else sanitizeName "!!!") = false →
        (joinStep "1" "!!!" "cap" none initialRoom).1 = initialRoom)) :=
  ⟨by decide,
    c9_empty_name_defaults "1" "!!!" "cap" none initialRoom (by decide)⟩

/-- The proximity test reads only the player's x position. -/
lemma hits_only_x (c : Coin) (p q : Player) (hx : p.x = q.x) :
    hits c p = hits c q := by
  unfold hits
  rw [hx]

/-- The catch award changes neither ids nor positions. -/
lemma credit_sig (pid : String) (ps : List Player) :
    (credit pid ps).map (fun p => (p.pid, p.x)) =
      ps.map (fun p => (p.pid, p.x)) := by
  induction ps with
  | nil => rfl
  | cons p rest ih =>
    unfold credit
    split <;> simp [ih]

/-- Rosters agreeing on ids and positions find the same catcher id. -/
lemma find?_hits_congr (c : Coin) :
    ∀ (ps qs : List Player),
      ps.map (fun p => (p.pid, p.x)) = qs.map (fun p => (p.pid, p.x)) →
      (ps.find? (fun p => hits c p)).map Player.pid =
        (qs.find? (fun p => hits c p)).map Player.pid := by
  intro ps
  induction ps with
  | nil =>
    intro qs h
    cases qs with
    | nil => rfl
    | cons q qs => simp at h
  | cons p ps ih =>
    intro qs h
    cases qs with
    | nil => simp at h
    | cons q qs =>
      simp only [List.map_cons, List.cons.injEq, Prod.mk.injEq] at h
      obtain ⟨⟨hpid, hx⟩, hrest⟩ := h
      rw [List.find?_cons, List.find?_cons, hits_only_x c p q hx]
      cases hhit : hits c q with
      | true => simpa using hpid
      | false => exact ih qs hrest

/-- Rosters agreeing on ids and positions give every coin the same fate. -/
lemma coinFate_congr (sin : ℚ → ℚ) (dt : ℚ) (c : Coin)
    (ps qs : List Player)
    (h : ps.map (fun p => (p.pid, p.x)) = qs.map (fun p => (p.pid, p.x))) :
    coinFate sin dt ps c = coinFate sin dt qs c := by
  unfold coinFate
  dsimp only
  split
  · rfl
  · have hfind := find?_hits_congr (moveCoin sin dt c) ps qs h
    cases hp : List.find? (fun p => hits (moveCoin sin dt c) p) ps with
    | none =>
      cases hq : List.find? (fun p => hits (moveCoin sin dt c) p) qs with
      | none => rfl
      | some q => rw [hp, hq] at hfind; simp at hfind
    | some p =>
      cases hq : List.find? (fun p => hits (moveCoin sin dt c) p) qs with
      | none => rw [hp, hq] at hfind; simp at hfind
      | some q =>
        rw [hp, hq] at hfind
        simp only [Option.map] at hfind
        rw [Option.some.injEq] at hfind
        dsimp only
        rw [hfind]

/-- A coin's fate is not changed by awarding a catch. -/
lemma coinFate_credit (sin : ℚ → ℚ) (dt : ℚ) (c : Coin) (pid : String)
    (ps : List Player) :
    coinFate sin dt (credit pid ps) c = coinFate sin dt ps c :=
  coinFate_congr sin dt c _ _ (credit_sig pid ps)

/-- Closed form of the coin loop: the collected events are the caught fates in
processing order, the surviving coins the kept fates (in original order after
the final reversal), and the roster is the original one with each event's
award applied. -/
lemma processRev_spec (sin : ℚ → ℚ) (dt : ℚ) :
    ∀ (cs : List Coin) (ps : List Player),
      (processRev sin dt ps cs).2.2 =
        cs.filterMap (fun c => fateEvent (coinFate sin dt ps c)) ∧
      (processRev sin dt ps cs).1 =
        (cs.filterMap (fun c => fateKept (coinFate sin dt ps c))).reverse ∧
      (processRev sin dt ps cs).2.1 =
        creditEvents
          (cs.filterMap (fun c => fateEvent (coinFate sin dt ps c))) ps := by
  intro cs
  induction cs with
  | nil => intro ps; exact ⟨rfl, rfl, rfl⟩
  | cons c rest ih =>
    intro ps
    unfold processRev
    dsimp only
    split
    case isTrue hfell =>
      have hfate : coinFate sin dt ps c = .fell := by
        unfold coinFate
        rw [if_pos hfell]
      have hdE : fateEvent (coinFate sin dt ps c) = none := by
        rw [hfate]
        rfl
      have hdK : fateKept (coinFate sin dt ps c) = none := by
        rw [hfate]
        rfl
      rw [List.filterMap_cons, List.filterMap_cons, hdE, hdK]
      exact ih ps
    case isFalse hfell =>
      split
      case h_1 p hfind =>
        have hfate : coinFate sin dt ps c =
            .caught p.pid (moveCoin sin dt c).x (moveCoin sin dt c).y := by
          unfold coinFate
          rw [if_neg hfell, hfind]
        have hdE : fateEvent (coinFate sin dt ps c) =
            some ⟨p.pid, (moveCoin sin dt c).x, (moveCoin sin dt c).y⟩ := by
          rw [hfate]
          rfl
        have hdK : fateKept (coinFate sin dt ps c) = none := by
          rw [hfate]
          rfl
        have hcongr : ∀ (l : List Coin),
            l.filterMap
                (fun c' => fateEvent (coinFate sin dt (credit p.pid ps) c')) =
              l.filterMap (fun c' => fateEvent (coinFate sin dt ps c')) := by
          intro l
          induction l with
          | nil => rfl
          | cons a l ihl =>
            rw [List.filterMap_cons, List.filterMap_cons, coinFate_credit,
              ihl]
        have hcongrK : ∀ (l : List Coin),
            l.filterMap
                (fun c' => fateKept (coinFate sin dt (credit p.pid ps) c')) =
              l.filterMap (fun c' => fateKept (coinFate sin dt ps c')) := by
          intro l
          induction l with
          | nil => rfl
          | cons a l ihl =>
            rw [List.filterMap_cons, List.filterMap_cons, coinFate_credit,
              ihl]
        obtain ⟨ihe, ihc, ihp⟩ := ih (credit p.pid ps)
        rw [List.filterMap_cons, List.filterMap_cons, hdE, hdK]
        refine ⟨?_, ?_, ?_⟩
        · dsimp only
          rw [ihe, hcongr rest]
        · dsimp only
          rw [ihc, hcongrK rest]
        · dsimp only
          rw [ihp, hcongr rest]
          rfl
      case h_2 hfind =>
        have hfate : coinFate sin dt ps c = .kept (moveCoin sin dt c) := by
          unfold coinFate
          rw [if_neg hfell, hfind]
        have hdE : fateEvent (coinFate sin dt ps c) = none := by
          rw [hfate]
          rfl
        have hdK : fateKept (coinFate sin dt ps c) =
            some (moveCoin sin dt c) := by
          rw [hfate]
          rfl
        obtain ⟨ihe, ihc, ihp⟩ := ih ps
        rw [List.filterMap_cons, List.filterMap_cons, hdE, hdK]
        refine ⟨ihe, ?_, ihp⟩
        dsimp only
        rw [ihc, List.reverse_cons]

/-- Awarding an id absent from the roster is a no-op. -/
lemma credit_not_mem (pid : String) (ps : List Player)
    (h : ∀ p ∈ ps, ¬ p.pid = pid) : credit pid ps = ps := by
  induction ps with
  | nil => rfl
  | cons p rest ih =>
    unfold credit
    rw [if_neg (h p (by simp)), ih (fun q hq => h q (by simp [hq]))]

/-- The conditional-award map is the identity on rosters without the id. -/
lemma map_award_id (pid : String) (ps : List Player)
    (h : ∀ p ∈ ps, ¬ p.pid = pid) :
    ps.map (fun p => if p.pid = pid then { p with score := p.score + 10 }
      else p) = ps := by
  induction ps with
  | nil => rfl
  | cons p rest ih =>
    rw [List.map_cons, if_neg (h p (by simp)),
      ih (fun q hq => h q (by simp [hq]))]

/-- Under unique ids, the first-match award is the pointwise conditional
award. -/
lemma credit_nodup (pid : String) (ps : List Player)
    (hnd : (ps.map Player.pid).Nodup) :
    credit pid ps =
      ps.map (fun p => if p.pid = pid then { p with score := p.score + 10 }
        else p) := by
  induction ps with
  | nil => rfl
  | cons p rest ih =>
    simp only [List.map_cons, List.nodup_cons] at hnd
    obtain ⟨hp, hrest⟩ := hnd
    unfold credit
    by_cases hpp : p.pid = pid
    · rw [if_pos hpp, List.map_cons, if_pos hpp]
      have hnone : ∀ q ∈ rest, ¬ q.pid = pid := by
        intro q hq hqq
        have hmem : q.pid ∈ rest.map Player.pid :=
          List.mem_map_of_mem Player.pid hq
        rw [hqq, ← hpp] at hmem
        exact hp hmem
      rw [map_award_id pid rest hnone]
    · rw [if_neg hpp, List.map_cons, if_neg hpp, ih hrest]

/-- Awarding a catch does not change the id sequence. -/
lemma credit_pids (pid : String) (ps : List Player) :
    (credit pid ps).map Player.pid = ps.map Player.pid := by
  induction ps with
  | nil => rfl
  | cons p rest ih =>
    unfold credit
    split <;> simp [ih]

/-- Closed form of applying all the catch awards of an event list: under
unique ids every player receives exactly 10 points per own event and nothing
else. -/
lemma creditEvents_closed (evs : List CEvent) :
    ∀ (ps : List Player), (ps.map Player.pid).Nodup →
      creditEvents evs ps = ps.map (fun p => { p with score := p.score +
        10 * (evs.countP (fun e => decide (e.playerId = p.pid))) }) := by
  induction evs with
  | nil =>
    intro ps hnd
    have hfun : (fun (p : Player) => { p with score := p.score +
        10 * (List.countP (fun e => decide (e.playerId = p.pid)) ([] : List CEvent)) }) =
        fun (p : Player) => p := by
      funext p
      simp [List.countP_nil]
    rw [hfun, List.map_id']
    rfl
  | cons e evs ih =>
    intro ps hnd
    have h1 : creditEvents (e :: evs) ps =
        creditEvents evs (credit e.playerId ps) := rfl
    rw [h1, credit_nodup e.playerId ps hnd]
    have hnd2 : (((ps.map (fun p => if p.pid = e.playerId then
        { p with score := p.score + 10 } else p))).map Player.pid).Nodup := by
      rw [List.map_map]
      have hcomp : (Player.pid ∘ fun p => if p.pid = e.playerId then
          { p with score := p.score + 10 } else p) = Player.pid := by
        funext p
        by_cases hpp : p.pid = e.playerId <;> simp [hpp]
      rw [hcomp]
      exact hnd
    rw [ih _ hnd2, List.map_map]
    have hfun : ((fun (p : Player) => { p with score := p.score +
          10 * (evs.countP (fun (e' : CEvent) => decide (e'.playerId = p.pid))) }) ∘
        (fun (p : Player) => if p.pid = e.playerId then
          { p with score := p.score + 10 } else p)) =
        fun (p : Player) => { p with score := p.score +
          10 * ((e :: evs).countP
            (fun (e' : CEvent) => decide (e'.playerId = p.pid))) } := by
      funext p
      by_cases hpp : p.pid = e.playerId
      · have he : (decide (e.playerId = p.pid)) = true := by
          simp [hpp.symm]
        simp only [Function.comp, if_pos hpp, List.countP_cons, he, if_true,
          Player.mk.injEq, true_and, and_true]
        omega
      · have he : (decide (e.playerId = p.pid)) = false := by
          simp only [decide_eq_false_iff_not]
          intro hcontra
          exact hpp hcontra.symm
        simp only [Function.comp, if_neg hpp, List.countP_cons, he,
          Bool.false_eq_true, if_false, Player.mk.injEq, true_and, and_true]
        omega
    rw [hfun]

/-- A coin's fate is `fell` exactly when its moved position crossed the
ground line. -/
lemma coinFate_fell_iff (sin : ℚ → ℚ) (dt : ℚ) (ps : List Player) (c : Coin) :
    coinFate sin dt ps c = .fell ↔ fellOff (moveCoin sin dt c) = true := by
  unfold coinFate
  dsimp only
  by_cases hf : fellOff (moveCoin sin dt c) = true
  · simp [hf]
  · rw [if_neg hf]
    constructor
    · intro hc
      revert hc
      split <;> simp
    · intro hc
      exact absurd hc hf

/-- Every coin of a step has exactly one fate: each one is either kept,
caught (producing one event) or fallen. -/
lemma coins_conservation (sin : ℚ → ℚ) (dt : ℚ) (ps : List Player) :
    ∀ (cs : List Coin),
      cs.length =
        (cs.filterMap (fun c => fateKept (coinFate sin dt ps c))).length +
        (cs.filterMap (fun c => fateEvent (coinFate sin dt ps c))).length +
        cs.countP (fun c => fellOff (moveCoin sin dt c)) := by
  intro cs
  induction cs with
  | nil => rfl
  | cons c rest ih =>
    rw [List.filterMap_cons, List.filterMap_cons, List.countP_cons,
      List.length_cons]
    rcases hfate : coinFate sin dt ps c with _ | ⟨pid, x, y⟩ | c'
    · have hf : fellOff (moveCoin sin dt c) = true :=
        (coinFate_fell_iff sin dt ps c).mp hfate
      rw [hf]
      have hk : fateKept CoinFate.fell = none := rfl
      have he : fateEvent CoinFate.fell = none := rfl
      rw [hk, he]
      try dsimp only
      simp only [eq_self_iff_true, if_true]
      omega
    · have hf : fellOff (moveCoin sin dt c) = false := by
        by_contra hcontra
        rw [Bool.not_eq_false] at hcontra
        rw [(coinFate_fell_iff sin dt ps c).mpr hcontra] at hfate
        exact CoinFate.noConfusion hfate
      rw [hf]
      have hk : fateKept (CoinFate.caught pid x y) = none := rfl
      have he : fateEvent (CoinFate.caught pid x y) = some ⟨pid, x, y⟩ := rfl
      rw [hk, he]
      try dsimp only
      simp only [Bool.false_eq_true, if_false, List.length_cons]
      omega
    · have hf : fellOff (moveCoin sin dt c) = false := by
        by_contra hcontra
        rw [Bool.not_eq_false] at hcontra
        rw [(coinFate_fell_iff sin dt ps c).mpr hcontra] at hfate
        exact CoinFate.noConfusion hfate
      rw [hf]
      have hk : fateKept (CoinFate.kept c') = some c' := rfl
      have he : fateEvent (CoinFate.kept c') = none := rfl
      rw [hk, he]
      try dsimp only
      simp only [Bool.false_eq_true, if_false, List.length_cons]
      omega

/-- A successful `find?` splits its list at the first match. -/
lemma find?_decomp {α : Type} (f : α → Bool) :
    ∀ (l : List α) (a : α), l.find? f = some a →
      ∃ l1 l2, l = l1 ++ a :: l2 ∧ (∀ b ∈ l1, f b = false) ∧ f a = true := by
  intro l
  induction l with
  | nil =>
    intro a h
    simp [List.find?] at h
  | cons x l ih =>
    intro a h
    rw [List.find?_cons] at h
    by_cases hx : f x = true
    · obtain rfl : x = a := Option.some.inj (by rw [hx] at h; exact h)
      exact ⟨[], l, by simp, by simp, hx⟩
    · rw [Bool.not_eq_true] at hx
      obtain ⟨l1, l2, heq, hl1, ha⟩ :=
        ih a (by rw [hx] at h; exact h)
      refine ⟨x :: l1, l2, by rw [heq]; rfl, ?_, ha⟩
      intro b hb
      rcases List.mem_cons.mp hb with rfl | hb
      · exact hx
      · exact hl1 b hb

/-- C3: during a physics step every catch credits exactly one player with
exactly 10 points (each roster entry gains 10 points per event carrying its
own id and nothing else), removes exactly one falling object (the coins are
conserved: survivors + catches + ground misses), and every emitted
`CollectedEvent` names the first colliding player in roster iteration order
for its (uniquely removed) coin — no object is credited twice or to two
players. -/
theorem c3_catch_exactly_once (sin : ℚ → ℚ) (dt : ℚ) (ps : List Player)
    (coins : List Coin) (hnd : (ps.map Player.pid).Nodup) :
    (processCoins sin dt ps coins).2.1 =
      ps.map (fun p => { p with score := p.score +
        10 * ((processCoins sin dt ps coins).2.2.countP
          (fun e => decide (e.playerId = p.pid))) }) ∧
    coins.length = (processCoins sin dt ps coins).1.length +
      (processCoins sin dt ps coins).2.2.length +
      coins.countP (fun c => fellOff (moveCoin sin dt c)) ∧
    ∀ e ∈ (processCoins sin dt ps coins).2.2, ∃ c ∈ coins,
      fellOff (moveCoin sin dt c) = false ∧
      e.x = (moveCoin sin dt c).x ∧ e.y = (moveCoin sin dt c).y ∧
      ∃ l1 p l2, ps = l1 ++ p :: l2 ∧ p.pid = e.playerId ∧
        hits (moveCoin sin dt c) p = true ∧
        ∀ q ∈ l1, hits (moveCoin sin dt c) q = false := by
  obtain ⟨hev, hcoins, hpl⟩ := processRev_spec sin dt coins.reverse ps
  refine ⟨?_, ?_, ?_⟩
  · unfold processCoins
    rw [hpl, creditEvents_closed _ ps hnd, hev]
  · have hcons := coins_conservation sin dt ps coins.reverse
    rw [List.length_reverse] at hcons
    have hrev : List.countP (fun c => fellOff (moveCoin sin dt c))
        coins.reverse =
        List.countP (fun c => fellOff (moveCoin sin dt c)) coins := by
      rw [List.countP_eq_length_filter, List.countP_eq_length_filter,
        List.filter_reverse, List.length_reverse]
    rw [hrev] at hcons
    unfold processCoins
    rw [hcoins, hev, List.length_reverse]
    exact hcons
  · intro e he
    unfold processCoins at he
    rw [hev] at he
    obtain ⟨c, hc, hfc⟩ := List.mem_filterMap.mp he
    rw [List.mem_reverse] at hc
    have hf : fellOff (moveCoin sin dt c) = false := by
      by_contra hcontra
      rw [Bool.not_eq_false] at hcontra
      rw [(coinFate_fell_iff sin dt ps c).mpr hcontra] at hfc
      exact Option.noConfusion hfc
    unfold coinFate at hfc
    rw [if_neg (by simp [hf])] at hfc
    cases hfind : List.find? (fun p => hits (moveCoin sin dt c) p) ps with
    | none =>
      rw [hfind] at hfc
      exact Option.noConfusion hfc
    | some p =>
      rw [hfind] at hfc
      have he2 : e =
          ⟨p.pid, (moveCoin sin dt c).x, (moveCoin sin dt c).y⟩ :=
        (Option.some.inj hfc).symm
      obtain ⟨l1, l2, hsplit, hl1, hp⟩ := find?_decomp _ ps p hfind
      exact ⟨c, hc, hf, by rw [he2], by rw [he2], l1, p, l2, hsplit,
        by rw [he2], hp, hl1⟩

/-- Witness for C3 at a concrete catching step (`demoRoom`'s single coin is
caught by the single player). -/
theorem c3_witness :
    (demoRoom.players.map Player.pid).Nodup ∧
      ((processCoins sinZero (mkRat 1 5) demoRoom.players
          demoRoom.coins).2.1 =
        demoRoom.players.map (fun p => { p with score := p.score +
          10 * ((processCoins sinZero (mkRat 1 5) demoRoom.players
            demoRoom.coins).2.2.countP
              (fun e => decide (e.playerId = p.pid))) }) ∧
      demoRoom.coins.length =
        (processCoins sinZero (mkRat 1 5) demoRoom.players
          demoRoom.coins).1.length +
        (processCoins sinZero (mkRat 1 5) demoRoom.players
          demoRoom.coins).2.2.length +
        demoRoom.coins.countP
          (fun c => fellOff (moveCoin sinZero (mkRat 1 5) c)) ∧
      ∀ e ∈ (processCoins sinZero (mkRat 1 5) demoRoom.players
          demoRoom.coins).2.2, ∃ c ∈ demoRoom.coins,
        fellOff (moveCoin sinZero (mkRat 1 5) c) = false ∧
        e.x = (moveCoin sinZero (mkRat 1 5) c).x ∧
        e.y = (moveCoin sinZero (mkRat 1 5) c).y ∧
        ∃ l1 p l2, demoRoom.players = l1 ++ p :: l2 ∧ p.pid = e.playerId ∧
          hits (moveCoin sinZero (mkRat 1 5) c) p = true ∧
          ∀ q ∈ l1, hits (moveCoin sinZero (mkRat 1 5) c) q = false) :=
  ⟨by decide,
    c3_catch_exactly_once sinZero (mkRat 1 5) demoRoom.players demoRoom.coins
      (by decide)⟩

/-- C6 counterexample: on `demoRoom` the move step catches the coin (queuing
its `CollectedEvent`) and simultaneously ends the game; along the whole trace
through GAME_OVER, the lobby, the countdown and the next round start, not a
single `gameState` payload is emitted, and `_startPlaying` clears the pending
buffer — the catch notification is dropped, never delivered. -/
theorem c6_counterexample_final_catch_dropped :
    c6Event ∈
      (step sinZero randsZero (.move "1" 450 1200) demoRoom).1.pendingCollected ∧
    c6Run.2.countP Msg.isGameState = 0 ∧
    c6Run.1.state = RState.PLAYING ∧
    c6Run.1.pendingCollected = [] := by
  refine ⟨?_, ?_, ?_, ?_⟩ <;> decide

/-- The move-handler tail on a step that does not end the game: it either
flushes the entire pending buffer into the one emitted `gameState` payload or
(while throttled) leaves it queued untouched. -/
lemma moveFinish_flush (now : ℕ) (r2 : Room)
    (hcont : (moveFinish now r2).1.state = RState.PLAYING) :
    (BROADCAST_THROTTLE_MS ≤ (now : ℤ) - (r2.lastBroadcastTime : ℤ) →
      (moveFinish now r2).1.pendingCollected = [] ∧
      (moveFinish now r2).2 = [gameStateMsg r2 r2.pendingCollected]) ∧
    (¬ BROADCAST_THROTTLE_MS ≤ (now : ℤ) - (r2.lastBroadcastTime : ℤ) →
      (moveFinish now r2).1.pendingCollected = r2.pendingCollected ∧
      (moveFinish now r2).2 = []) := by
  unfold moveFinish at hcont ⊢
  by_cases hend : r2.timeLeft ≤ 0
  · rw [if_pos hend, endGame_state] at hcont
    exact absurd hcont (by decide)
  · rw [if_neg hend]
    constructor
    · intro hthr
      rw [if_pos hthr]
      exact ⟨rfl, rfl⟩
    · intro hthr
      rw [if_neg hthr]
      exact ⟨rfl, rfl⟩

/-- The alarm tail on a step that does not end the game always flushes the
entire pending buffer into the one emitted `gameState` payload. -/
lemma alarmFinish_flush (now : ℕ) (r2 : Room)
    (hcont : (alarmFinish now r2).1.state = RState.PLAYING) :
    (alarmFinish now r2).1.pendingCollected = [] ∧
    (alarmFinish now r2).2 = [gameStateMsg r2 r2.pendingCollected] := by
  unfold alarmFinish at hcont ⊢
  by_cases hend : r2.timeLeft ≤ 0
  · rw [if_pos hend, endGame_state] at hcont
    exact absurd hcont (by decide)
  · rw [if_neg hend]
    exact ⟨rfl, rfl⟩

/-- C6 (amended): a `CollectedEvent` produced by a physics step that does not
end the game is never dropped: every already-pending event either stays
queued or is inside the emitted `gameState` payload; once the throttle
permits, the move handler broadcasts exactly one `gameState` carrying the
full pending buffer plus the fresh events and clears it (the fallback alarm
always does), while a throttled step only queues.  (Events still pending when
the game ends are discarded at the next round start without ever appearing in
a `gameState` payload — the counterexample.) -/
theorem c6_pending_flush_behavior (sin : ℚ → ℚ) (rands : ℕ → SpawnRand)
    (pid : String) (x : ℚ) (now : ℕ) (r : Room)
    (hst : r.state = RState.PLAYING)
    (hp : r.players.any (fun p => p.pid = pid) = true)
    (hcont : (moveMsg sin rands pid x now r).1.state = RState.PLAYING) :
    (∀ e ∈ r.pendingCollected,
      e ∈ (moveMsg sin rands pid x now r).1.pendingCollected ∨
      ∃ r2 col, gameStateMsg r2 col ∈
        (moveMsg sin rands pid x now r).2 ∧ e ∈ col) ∧
    (BROADCAST_THROTTLE_MS ≤ (now : ℤ) - (r.lastBroadcastTime : ℤ) →
      (moveMsg sin rands pid x now r).1.pendingCollected = [] ∧
      ∃ fresh, (moveMsg sin rands pid x now r).2 =
        [gameStateMsg
          (physAdvance sin rands now
            { r with players := setPlayerX pid (clampX x) r.players })
          (r.pendingCollected ++ fresh)]) ∧
    (¬ BROADCAST_THROTTLE_MS ≤ (now : ℤ) - (r.lastBroadcastTime : ℤ) →
      ∃ fresh, (moveMsg sin rands pid x now r).1.pendingCollected =
        r.pendingCollected ++ fresh ∧
        (moveMsg sin rands pid x now r).2 = []) ∧
    ((alarmStep sin rands now r).1.state = RState.PLAYING →
      0 < r.players.length →
      (alarmStep sin rands now r).1.pendingCollected = [] ∧
      ∃ fresh, (alarmStep sin rands now r).2 =
        [gameStateMsg (physAdvance sin rands now r)
          (r.pendingCollected ++ fresh)]) := by
  rw [moveMsg_run sin rands pid x now r hst hp] at hcont ⊢
  have hflush := moveFinish_flush now _ hcont
  have hmove2 : (BROADCAST_THROTTLE_MS ≤ (now : ℤ) -
        (r.lastBroadcastTime : ℤ) →
      (moveFinish now (physAdvance sin rands now
        { r with players := setPlayerX pid (clampX x) r.players })).1.pendingCollected = [] ∧
      ∃ fresh, (moveFinish now (physAdvance sin rands now
        { r with players := setPlayerX pid (clampX x) r.players })).2 =
        [gameStateMsg
          (physAdvance sin rands now
            { r with players := setPlayerX pid (clampX x) r.players })
          (r.pendingCollected ++ fresh)]) := by
    intro hthr
    obtain ⟨hpend, hmsgs⟩ := hflush.1 hthr
    exact ⟨hpend, _, hmsgs⟩
  have hmove3 : (¬ BROADCAST_THROTTLE_MS ≤ (now : ℤ) -
        (r.lastBroadcastTime : ℤ) →
      ∃ fresh, (moveFinish now (physAdvance sin rands now
        { r with players := setPlayerX pid (clampX x) r.players })).1.pendingCollected =
        r.pendingCollected ++ fresh ∧
        (moveFinish now (physAdvance sin rands now
          { r with players := setPlayerX pid (clampX x) r.players })).2 = []) := by
    intro hthr
    obtain ⟨hpend, hmsgs⟩ := hflush.2 hthr
    exact ⟨_, hpend, hmsgs⟩
  refine ⟨?_, hmove2, hmove3, ?_⟩
  · intro e he
    by_cases hthr : BROADCAST_THROTTLE_MS ≤ (now : ℤ) -
        (r.lastBroadcastTime : ℤ)
    · obtain ⟨hpend, fresh, hmsgs⟩ := hmove2 hthr
      refine Or.inr ⟨physAdvance sin rands now
        { r with players := setPlayerX pid (clampX x) r.players },
        r.pendingCollected ++ fresh, ?_, ?_⟩
      · rw [hmsgs]
        exact List.mem_singleton.mpr rfl
      · exact List.mem_append_left _ he
    · obtain ⟨fresh, hpend, _⟩ := hmove3 hthr
      exact Or.inl (by rw [hpend]; exact List.mem_append_left _ he)
  · intro halarm hlen
    rw [alarmStep_playing sin rands now r hst] at halarm ⊢
    rw [if_neg (by omega)] at halarm ⊢
    obtain ⟨hpend, hmsgs⟩ := alarmFinish_flush now _ halarm
    exact ⟨hpend, _, hmsgs⟩

/-- Witness for C6 (amended) on a mid-round catch with plenty of time left
and an expired throttle window. -/
theorem c6_witness :
    (c6FlushRoom.state = RState.PLAYING ∧
      c6FlushRoom.players.any (fun p => p.pid = "1") = true ∧
      (moveMsg sinZero randsZero "1" 450 1200 c6FlushRoom).1.state =
        RState.PLAYING) ∧
      ((∀ e ∈ c6FlushRoom.pendingCollected,
        e ∈ (moveMsg sinZero randsZero "1" 450 1200
          c6FlushRoom).1.pendingCollected ∨
        ∃ r2 col, gameStateMsg r2 col ∈
          (moveMsg sinZero randsZero "1" 450 1200 c6FlushRoom).2 ∧
            e ∈ col) ∧
      (BROADCAST_THROTTLE_MS ≤ (1200 : ℤ) -
          (c6FlushRoom.lastBroadcastTime : ℤ) →
        (moveMsg sinZero randsZero "1" 450 1200
          c6FlushRoom).1.pendingCollected = [] ∧
        ∃ fresh, (moveMsg sinZero randsZero "1" 450 1200 c6FlushRoom).2 =
          [gameStateMsg
            (physAdvance sinZero randsZero 1200
              { c6FlushRoom with
                  players := setPlayerX "1" (clampX 450)
                    c6FlushRoom.players })
            (c6FlushRoom.pendingCollected ++ fresh)]) ∧
      (¬ BROADCAST_THROTTLE_MS ≤ (1200 : ℤ) -
          (c6FlushRoom.lastBroadcastTime : ℤ) →
        ∃ fresh, (moveMsg sinZero randsZero "1" 450 1200
            c6FlushRoom).1.pendingCollected =
          c6FlushRoom.pendingCollected ++ fresh ∧
          (moveMsg sinZero randsZero "1" 450 1200 c6FlushRoom).2 = []) ∧
      ((alarmStep sinZero randsZero 1200 c6FlushRoom).1.state =
          RState.PLAYING →
        0 < c6FlushRoom.players.length →
        (alarmStep sinZero randsZero 1200 c6FlushRoom).1.pendingCollected =
          [] ∧
        ∃ fresh, (alarmStep sinZero randsZero 1200 c6FlushRoom).2 =
          [gameStateMsg (physAdvance sinZero randsZero 1200 c6FlushRoom)
            (c6FlushRoom.pendingCollected ++ fresh)])) :=
  ⟨⟨by decide, by decide, by decide⟩,
    c6_pending_flush_behavior sinZero randsZero "1" 450 1200 c6FlushRoom
      (by decide) (by decide) (by decide)⟩

end MoneyMan
